import Mathlib

/-!
Verification of the graphql-schema repository (package `schema` plus the
`gen.go` code generator) against its natural-language specification.

The development shallowly embeds:
  * the lexical scanner of `lex.go` (state functions `lexSchema`, `lexBlock`,
    `lexArgs`, `lexComment`, `lexIdentifier`, `lexStringValue`, the global
    mode stack `fnStack` with its duplicate-push guard, and the line/position
    bookkeeping of `next`/`emit`/`ignore`), extended with the union lexing
    mode that the union-capable parser revision requires but whose source
    file is not present (those parts are marked `Modelled from the spec:`);
  * the union-capable parser revision (`parseContext`, `BuildSchemaConfig`,
    `processTypeNode`, `processUnionNode`, `handleParams`) in namespace
    `Parse1`;
  * the older parser revision (`parse.go`, single `types` table, no unions)
    in namespace `Parse0`;
  * the concurrent code generator of `gen.go` (`getGoName` / `setGoName` /
    `processAST`) in namespace `Gen`.

Machine strings are Lean `String`, runes are `Char` (the sources only ever
see ASCII schema text), byte positions are rune indices, and Go panics are
`Except.error` / explicit `panicked` outcomes at the function boundary where
they escape.
-/

/-- Brace characters, used by the scanner's block rules. -/
def lbrace : Char := Char.ofNat 123

/-- Closing brace character. -/
def rbrace : Char := Char.ofNat 125

/-- Token kinds, mirroring the `Token` constants of `lex.go` (`itemError`,
`itemColon`, ..., keywords) plus the pipe and union-terminator tokens that
the union-capable parser consumes.  The `pipe` and `unionEnd` constructors
are `Modelled from the spec:` the lexer revision defining `itemPipe` and
`itemUnionEnd` is not in the source tree. -/
inductive Tok where
  | error
  | colon
  | comma
  | equal
  | exclamation
  | eofT
  | identifier
  | leftParen
  | rightParen
  | leftBracket
  | rightBracket
  | space
  | stringValue
  | blockStart
  | blockEnd
  | schemaK
  | typeK
  | enumK
  | unionK
  | interfaceK
  | scalarK
  | inputK
  | implementsK
  | pipe
  | unionEnd
deriving DecidableEq, Repr

/-- A scanned item (token), as in `lex.go`: kind, starting position, captured
text, and the line number recorded at emission time. -/
structure Item where
  typ : Tok
  pos : Nat
  val : String
  line : Nat
deriving DecidableEq, Repr

/-- The keyword table `key` of `lex.go`, restricted to the entries whose
value is greater than `itemKeyword` (the only ones reachable from
`lexIdentifier`; the `\x7b` / `\x7d` entries can never be produced by an
alphanumeric run). -/
def keyTok (w : String) : Option Tok :=
  if w = "schema" then some Tok.schemaK
  else if w = "type" then some Tok.typeK
  else if w = "enum" then some Tok.enumK
  else if w = "union" then some Tok.unionK
  else if w = "interface" then some Tok.interfaceK
  else if w = "scalar" then some Tok.scalarK
  else if w = "input" then some Tok.inputK
  else if w = "implements" then some Tok.implementsK
  else none

/-- The state-function names that are ever pushed on the global `fnStack` of
`lex.go` (`lexSchema`, `lexBlock`, `lexArgs`; `lexProperty` is dead code).
The duplicate-push guard compares function identity, which corresponds to
equality of these names. -/
inductive StName where
  | schemaS
  | blockS
  | argsS
deriving DecidableEq, Repr

/-- The global mode stack `fnStack` (head of the list is the top). -/
def Stack := List StName

/-- The `push` of `lex.go`, including its duplicate-push guard. -/
def pushS (f : StName) (s : Stack) : Stack :=
  match s with
  | [] => [f]
  | top :: rest => if top = f then top :: rest else f :: top :: rest

/-- The stack removal performed by `pop` of `lex.go` (the returned value is
unused at every call site that matters; `pop` on an empty stack returns nil
and leaves the stack empty). -/
def popS (s : Stack) : Stack := s.tail

/-- The `last` of `lex.go`: the top of the stack.  On an empty stack the Go
code indexes out of range (a runtime panic); we return `none`, which halts
the scan.  This situation is unreachable from the scanner's entry point. -/
def lastS (s : Stack) : Option StName := s.head?

/-- Scanner state other than the mode stack: the fields of `lexer` in
`lex.go` (input, current position, start of the pending item, 1-based line
count, bracket depth) plus the list of items sent on the `items` channel. -/
structure Core where
  input : List Char
  pos : Nat
  start : Nat
  line : Nat
  parenDepth : Int
  out : List Item
deriving Repr

/-- The pending slice `l.input[l.start:l.pos]`. -/
def sliceL (c : Core) : List Char := (c.input.drop c.start).take (c.pos - c.start)

/-- Newline count of a character list (`strings.Count(s, "\n")`). -/
def countNL (l : List Char) : Nat := l.countP (fun ch => ch == '\n')

/-- The rune at the current position (`none` is end of input). -/
def peekc (c : Core) : Option Char := c.input.get? c.pos

/-- Advance over one rune, counting newlines, as `next` does. -/
def adv (c : Core) (ch : Char) : Core :=
  { c with pos := c.pos + 1, line := if ch = '\n' then c.line + 1 else c.line }

/-- The `emit` of `lex.go`: send the pending slice as an item carrying the
current line, then (for string values only) add the newlines contained in
the sent text to the line count, then move `start` up to `pos`. -/
def emitI (t : Tok) (c : Core) : Core :=
  let v := sliceL c
  let c1 := { c with out := c.out ++ [({ typ := t, pos := c.start, val := String.mk v, line := c.line } : Item)] }
  let c2 := if t = Tok.stringValue then { c1 with line := c1.line + countNL v } else c1
  { c2 with start := c2.pos }

/-- The `ignore` of `lex.go`: count the newlines of the skipped slice (note
that `next` has already counted newlines it consumed, so a newline skipped
this way is counted twice — a quirk of the source reproduced faithfully)
and move `start` up to `pos`. -/
def ignoreI (c : Core) : Core :=
  { c with line := c.line + countNL (sliceL c), start := c.pos }

/-- The `errorf` of `lex.go`: send a single error item carrying the message
and the current line, terminating the scan. -/
def errI (msg : String) (c : Core) : Core :=
  { c with out := c.out ++ [{ typ := Tok.error, pos := c.start, val := msg, line := c.line }] }

/-- The `isSpace` of `lex.go`. -/
def isSpaceC (r : Char) : Bool := r == ' ' || r == '\t'

/-- The `isEndOfLine` of `lex.go`. -/
def isEOLC (r : Char) : Bool := r == '\r' || r == '\n'

/-- The `isAlphaNumeric` of `lex.go` (letter, digit or underscore; the
source uses Unicode classes, the schema inputs are ASCII). -/
def isAlphaNum (r : Char) : Bool := r == '_' || r.isAlpha || r.isDigit

/-- The terminator set of `atTerminator` in `lex.go` applied to a rune
(`none` is end of input, a valid terminator). -/
def termOk (r : Option Char) : Bool :=
  match r with
  | none => true
  | some ch =>
    isSpaceC ch || isEOLC ch || ch == ':' || ch == ')' || ch == '(' || ch == ',' || ch == ']'

/-- Control points of the scanner: each corresponds to one invocation of a
state function of `lex.go` (`blockLoop`/`argsLoop` carry the `startLine`
local captured at the invocation's entry), plus the union-mode states
`Modelled from the spec:` the union-capable lexer file is not in the source
tree; per the spec, the keyword `union` switches into Union mode without
pushing, members are scanned as identifiers, and end-of-line or end-of-input
emits a union terminator and returns to the enclosing mode. -/
inductive Ctl where
  | schemaC
  | commentC
  | identC
  | unionC
  | unionIdentC
  | blockEnterC
  | blockLoopC (sl : Nat)
  | argsEnterC
  | argsLoopC (sl : Nat)
  | strLitC
deriving DecidableEq, Repr

/-- The state entered when a state-function value popped from the stack is
re-invoked by the `run` loop. -/
def ctlOf (n : StName) : Ctl :=
  match n with
  | StName.schemaS => Ctl.schemaC
  | StName.blockS => Ctl.blockEnterC
  | StName.argsS => Ctl.argsEnterC

/-- Return `last()` as the next state (the Go idiom `return last()`). -/
def goLast (c : Core) (s : Stack) : Core × Stack × Option Ctl :=
  match lastS s with
  | none => (c, s, none)
  | some n => (c, s, some (ctlOf n))

/-- Leading triple-quote test (`strings.HasPrefix(l.input[l.pos:], ...)`). -/
def hasPre3q (l : List Char) : Bool :=
  match l with
  | '\"' :: '\"' :: '\"' :: _ => true
  | _ => false

/-- Index of the first triple quote in a character list
(`strings.Index(s, ...)`), `none` if absent. -/
def idx3q : List Char → Option Nat
  | '\"' :: '\"' :: '\"' :: _ => some 0
  | _ :: rest => (idx3q rest).map (fun i => i + 1)
  | [] => none

/-- Finish an identifier run: look the word up in the keyword table, emit the
keyword or identifier item, then continue in `last()` — except that emitting
the `union` keyword continues in Union mode (`Modelled from the spec:` the
keyword `union` is special, lexing continues in Union mode regardless of the
enclosing mode). -/
def identFinish (c : Core) (s : Stack) : Core × Stack × Option Ctl :=
  let w := String.mk (sliceL c)
  let t := match keyTok w with
    | some k => k
    | none => Tok.identifier
  let c2 := emitI t c
  if t = Tok.unionK then (c2, s, some Ctl.unionC) else goLast c2 s

/-- One invocation step of `lexSchema`. -/
def stepSchema (c : Core) (s : Stack) : Core × Stack × Option Ctl :=
  let s := pushS StName.schemaS s
  match peekc c with
  | none => (emitI Tok.eofT c, s, none)
  | some r =>
    let c' := adv c r
    if isSpaceC r || isEOLC r then (ignoreI c', s, some Ctl.schemaC)
    else if r == '#' then (c', s, some Ctl.commentC)
    else if r = lbrace then (emitI Tok.blockStart (ignoreI c'), s, some Ctl.blockEnterC)
    else if isAlphaNum r then (c, s, some Ctl.identC)
    else (errI ("unrecognized character in action: " ++ String.singleton r) c', s, none)

/-- One iteration of `lexComment`. -/
def stepComment (c : Core) (s : Stack) : Core × Stack × Option Ctl :=
  match peekc c with
  | none => goLast c s
  | some r =>
    let c' := adv c r
    if isEOLC r then goLast c' s
    else (ignoreI c', s, some Ctl.commentC)

/-- One iteration of `lexIdentifier`. -/
def stepIdent (c : Core) (s : Stack) : Core × Stack × Option Ctl :=
  match peekc c with
  | none => identFinish c s
  | some r =>
    if isAlphaNum r then (adv c r, s, some Ctl.identC)
    else if termOk (some r) then identFinish c s
    else (errI ("bad character " ++ String.singleton r) c, s, none)

/-- One iteration of the Union mode (`Modelled from the spec:` see `Ctl`). -/
def stepUnion (c : Core) (s : Stack) : Core × Stack × Option Ctl :=
  match peekc c with
  | none => goLast (emitI Tok.unionEnd c) s
  | some r =>
    if isAlphaNum r then (c, s, some Ctl.unionIdentC)
    else
      let c' := adv c r
      if isSpaceC r then (ignoreI c', s, some Ctl.unionC)
      else if r == '=' then (emitI Tok.equal c', s, some Ctl.unionC)
      else if r == '|' then (emitI Tok.pipe c', s, some Ctl.unionC)
      else if r == '\n' then goLast (emitI Tok.unionEnd (ignoreI c')) s
      else (errI ("unrecognized character in union: " ++ String.singleton r) c', s, none)

/-- One iteration of the Union-mode member scan (`Modelled from the spec:`
see `Ctl`). -/
def stepUnionIdent (c : Core) (s : Stack) : Core × Stack × Option Ctl :=
  match peekc c with
  | none => (emitI Tok.identifier c, s, some Ctl.unionC)
  | some r =>
    if isAlphaNum r then (adv c r, s, some Ctl.unionIdentC)
    else if isSpaceC r || isEOLC r || r == '|' || r == '=' then
      (emitI Tok.identifier c, s, some Ctl.unionC)
    else (errI ("bad character " ++ String.singleton r) c, s, none)

/-- Entry of a `lexBlock` invocation: push the mode (duplicate-guarded) and
capture the `startLine` local. -/
def stepBlockEnter (c : Core) (s : Stack) : Core × Stack × Option Ctl :=
  (c, pushS StName.blockS s, some (Ctl.blockLoopC c.line))

/-- One iteration of the loop of `lexBlock` (with its captured
`startLine`), dispatching on the rune returned by `next` (`none` at end of
input). -/
def blockRune (sl : Nat) (r : Option Char) (c : Core) (s : Stack) : Core × Stack × Option Ctl :=
  match r with
  | none => (errI "unterminated block" { c with line := sl }, s, none)
  | some r =>
    if isAlphaNum r then (c, s, some Ctl.identC)
    else
      let c' := adv c r
      if isSpaceC r then (ignoreI c', s, some (Ctl.blockLoopC sl))
      else if r == '#' then (c', s, some Ctl.commentC)
      else if r == '\n' then (ignoreI c', s, some (Ctl.blockLoopC sl))
      else if r == ':' then (emitI Tok.colon c', s, some (Ctl.blockLoopC sl))
      else if r == '!' then (emitI Tok.exclamation c', s, some (Ctl.blockLoopC sl))
      else if r == '=' then (emitI Tok.equal c', s, some (Ctl.blockLoopC sl))
      else if r == '(' then (emitI Tok.leftParen c', s, some Ctl.argsEnterC)
      else if r == '[' then
        ({ emitI Tok.leftBracket c' with parenDepth := c.parenDepth + 1 }, s,
          some (Ctl.blockLoopC sl))
      else if r == ']' then
        let c2 : Core := { emitI Tok.rightBracket c' with parenDepth := c.parenDepth - 1 }
        if c2.parenDepth < 0 then (errI "unexpected right bracket" c2, s, none)
        else (c2, s, some (Ctl.blockLoopC sl))
      else if r = rbrace then
        let c2 := emitI Tok.blockEnd (ignoreI c')
        goLast c2 (popS s)
      else (c', s, some (Ctl.blockLoopC sl))

/-- One iteration of the loop of `lexBlock`: the leading triple-quote check,
then the rune dispatch. -/
def stepBlock (sl : Nat) (c : Core) (s : Stack) : Core × Stack × Option Ctl :=
  if hasPre3q (c.input.drop c.pos) then (c, s, some Ctl.strLitC)
  else blockRune sl (peekc c) c s

/-- Entry of a `lexArgs` invocation. -/
def stepArgsEnter (c : Core) (s : Stack) : Core × Stack × Option Ctl :=
  (c, pushS StName.argsS s, some (Ctl.argsLoopC c.line))

/-- One iteration of the loop of `lexArgs` (with its captured `startLine`),
dispatching on the rune returned by `next`. -/
def argsRune (sl : Nat) (r : Option Char) (c : Core) (s : Stack) : Core × Stack × Option Ctl :=
  match r with
  | none => (errI "unterminated arguments block" { c with line := sl }, s, none)
  | some r =>
    if isAlphaNum r then (c, s, some Ctl.identC)
    else
      let c' := adv c r
      if isSpaceC r then (ignoreI c', s, some (Ctl.argsLoopC sl))
      else if r == '#' then (c', s, some Ctl.commentC)
      else if r == '\n' then (ignoreI c', s, some (Ctl.argsLoopC sl))
      else if r == ':' then (emitI Tok.colon c', s, some (Ctl.argsLoopC sl))
      else if r == ',' then (emitI Tok.comma c', s, some (Ctl.argsLoopC sl))
      else if r == '!' then (emitI Tok.exclamation c', s, some (Ctl.argsLoopC sl))
      else if r == '[' then
        ({ emitI Tok.leftBracket c' with parenDepth := c.parenDepth + 1 }, s,
          some (Ctl.argsLoopC sl))
      else if r == ']' then
        let c2 : Core := { emitI Tok.rightBracket c' with parenDepth := c.parenDepth - 1 }
        if c2.parenDepth < 0 then (errI "unexpected right bracket" c2, s, none)
        else (c2, s, some (Ctl.argsLoopC sl))
      else if r == ')' then
        let c2 := emitI Tok.rightParen c'
        goLast c2 (popS s)
      else (c', s, some (Ctl.argsLoopC sl))

/-- One iteration of the loop of `lexArgs`. -/
def stepArgs (sl : Nat) (c : Core) (s : Stack) : Core × Stack × Option Ctl :=
  argsRune sl (peekc c) c s

/-- The whole of `lexStringValue`. -/
def stepStr (c : Core) (s : Stack) : Core × Stack × Option Ctl :=
  let c1 := { c with pos := c.pos + 3 }
  let c2 := ignoreI c1
  match idx3q (c2.input.drop c2.pos) with
  | none => (errI ("unclosed string at pos " ++ toString c2.pos) c2, s, none)
  | some i =>
    let c3 := { c2 with pos := c2.pos + i }
    let c4 := emitI Tok.stringValue c3
    let c5 := { c4 with pos := c4.pos + 3 }
    goLast c5 s

/-- One scheduling step of the scanner: runs the current state function up
to its next rune decision.  Each state transcribes the corresponding state
function of `lex.go` branch by branch (`stepUnion`/`stepUnionIdent` are
`Modelled from the spec:` see `Ctl`). -/
def stepOnce (ctl : Ctl) (c : Core) (s : Stack) : Core × Stack × Option Ctl :=
  match ctl with
  | Ctl.schemaC => stepSchema c s
  | Ctl.commentC => stepComment c s
  | Ctl.identC => stepIdent c s
  | Ctl.unionC => stepUnion c s
  | Ctl.unionIdentC => stepUnionIdent c s
  | Ctl.blockEnterC => stepBlockEnter c s
  | Ctl.blockLoopC sl => stepBlock sl c s
  | Ctl.argsEnterC => stepArgsEnter c s
  | Ctl.argsLoopC sl => stepArgs sl c s
  | Ctl.strLitC => stepStr c s

/-- The `run` loop of the lexing goroutine: invoke state functions until one
returns nil.  Fuel only bounds the number of scheduling steps; `tokenize`
always supplies more fuel than any scan can consume. -/
def runL : Nat → Ctl → Core → Stack → Core × Stack
  | 0, _, c, s => (c, s)
  | fuel + 1, ctl, c, s =>
    match stepOnce ctl c s with
    | (c', s', none) => (c', s')
    | (c', s', some ctl') => runL fuel ctl' c' s'

/-- Fuel bound: every scheduling step either consumes a rune or belongs to a
chain of at most a handful of non-consuming transitions. -/
def fuelOf (input : List Char) : Nat := 8 * input.length + 64

/-- A fresh `lexer` for the given input (`lex` in `lex.go`: line starts 1). -/
def initCore (s : String) : Core :=
  { input := s.toList, pos := 0, start := 0, line := 1, parenDepth := 0, out := [] }

/-- Scan the input starting from a given residual global mode stack (the
package-level `fnStack` persists across calls to `lex`). -/
def scanItems (s : String) (st : Stack) : List Item :=
  (runL (fuelOf s.toList) Ctl.schemaC (initCore s) st).1.out

/-- Scan with the pristine global stack (the state at program start). -/
def tokenize (s : String) : List Item := scanItems s []

/-! ### The type graph assembled by the parser

Values of the `github.com/graphql-go/graphql` configuration types that the
parser constructs: objects, unions, fields, argument configurations, and the
schema configuration.  `graphql.Fields` and `graphql.FieldConfigArgument`
are Go maps; they are embedded as association lists with map (overwrite)
update, since the parser only ever stores and looks up by key.  Resolver
callbacks are opaque to the parser; they are embedded as `Nat` handles. -/

mutual
inductive GType where
  | scalar (name : String) : GType
  | object (o : GObject) : GType
  | unionT (u : GUnion) : GType
  | listT (elem : Option GType) : GType
inductive GObject where
  | mk (name : String) (fields : List (String × GField)) : GObject
inductive GUnion where
  | mk (name : String) (types : List GObject) : GUnion
inductive GField where
  | mk (typ : Option GType) (args : Option (List (String × GType))) (resolve : Option Nat) : GField
end

/-- Name of an object value. -/
def GObject.name : GObject → String
  | GObject.mk n _ => n

/-- Field map of an object value. -/
def GObject.fields : GObject → List (String × GField)
  | GObject.mk _ f => f

/-- Name of a union value. -/
def GUnion.name : GUnion → String
  | GUnion.mk n _ => n

/-- Ordered member list of a union value. -/
def GUnion.types : GUnion → List GObject
  | GUnion.mk _ t => t

/-- Resolved output type of a field value. -/
def GField.typ : GField → Option GType
  | GField.mk t _ _ => t

/-- Argument configuration of a field value. -/
def GField.args : GField → Option (List (String × GType))
  | GField.mk _ a _ => a

/-- Resolver handle attached to a field value. -/
def GField.resolve : GField → Option Nat
  | GField.mk _ _ r => r

/-- `graphql.SchemaConfig` as far as this package populates it. -/
structure SchemaConfig where
  query : Option GObject

/-- Association-list lookup (Go map read). -/
def lookupA {α : Type} : List (String × α) → String → Option α
  | [], _ => none
  | (k, v) :: rest, key => if k = key then some v else lookupA rest key

/-- Association-list store (Go map write: overwrite or append). -/
def upsertA {α : Type} : List (String × α) → String → α → List (String × α)
  | [], k, v => [(k, v)]
  | (k', v') :: rest, k, v =>
    if k' = k then (k, v) :: rest else (k', v') :: upsertA rest k v

/-- The fixed `builtinscalars` table (`ID`, `String`, `Float`, `Int`,
`Boolean`). -/
def builtinscalars : List (String × GType) :=
  [("ID", GType.scalar "ID"), ("String", GType.scalar "String"),
   ("Float", GType.scalar "Float"), ("Int", GType.scalar "Int"),
   ("Boolean", GType.scalar "Boolean")]

/-- Structured renderings of the `errorf` format strings of the parser, each
carrying exactly the data interpolated by the corresponding call. -/
inductive EKind where
  | noIdentAfterType (t : Tok) (v : String)
  | noBlockStart (t : Tok) (v : String)
  | noLabelAfterBlockStart (t : Tok) (v : String)
  | noColonOrParen (t : Tok) (v : String)
  | noTypeIdent (t : Tok) (v : String)
  | noClosingBracket (t : Tok) (v : String)
  | undeclaredType (v : String)
  | noIdentAfterUnion (t : Tok) (v : String)
  | noEqualAfterUnion (t : Tok) (v : String)
  | doublePipe
  | lastIsPipe
  | undeclaredObject (v : String)
  | noLabelInArg (t : Tok) (v : String)
  | noColonAfterLabel (t : Tok) (v : String)
  | noComma
  | undeclaredTypeV0 (v : String)
  | fuelOut
deriving DecidableEq, Repr

/-- A parser panic value: the message data together with the 1-based line
`t.token[0].line` interpolated by `errorf`. -/
structure PErr where
  line : Nat
  kind : EKind
deriving DecidableEq, Repr

/-- The zero value of `item`: what `nextItem` yields once the scanner's
channel is closed, and what `token[0]` holds before the first real read. -/
def zeroItem : Item := { typ := Tok.error, pos := 0, val := "", line := 0 }

/-- The `next` of the parser: return the head of the stream, which also
becomes the new `token[0]` (second component), or the zero item forever once
the stream is exhausted (`nextItem` on the closed channel). -/
def pNext (stream : List Item) : Item × Item × List Item :=
  match stream with
  | [] => (zeroItem, zeroItem, [])
  | x :: rest => (x, x, rest)

/-- Build the panic raised by `errorf`: the line of `token[0]` plus the
structured message. -/
def errf (tok0 : Item) (k : EKind) : PErr := { line := tok0.line, kind := k }

/-- Outcome of one build call, observed at the `BuildSchemaConfig` boundary:
a normal return (config plus the returned error value), an escaped panic, or
no return at all (the loop reads the closed channel forever). -/
inductive BuildResult where
  | returned (cfg : SchemaConfig) (err : Option PErr)
  | panicked (e : PErr)
  | hung

namespace Parse1

/-- The symbol tables of `parseContext` in the union-capable parser revision:
resolved object types and resolved union types (`scalars` always aliases the
fixed `builtinscalars` table and is never written). -/
structure PState where
  objects : List (String × GObject)
  unions : List (String × GUnion)

/-- The three-stage lookup of a raw type name performed by `processTypeNode`
and `handleParams`: built-in scalars first, then declared object types, then
declared union types. -/
def lookup3 (st : PState) (v : String) : Option GType :=
  match lookupA builtinscalars v with
  | some t => some t
  | none =>
    match lookupA st.objects v with
    | some o => some (GType.object o)
    | none =>
      match lookupA st.unions v with
      | some u => some (GType.unionT u)
      | none => none

/-- The `handleParams` of the union-capable revision: repeatedly read
`label : Type` pairs separated by commas until a right parenthesis, storing
each argument's resolved type, and failing on a missing label, missing
colon, undeclared type, or missing comma.  Exhaustion of the stream feeds
the loop zero items (closed channel), which fail the corresponding check;
the short-stream cases below spell those paths out. -/
def handleParams (st : PState) (args : List (String × GType)) :
    List Item → Except PErr (List (String × GType) × List Item)
  | [] => Except.error (errf zeroItem (EKind.noLabelInArg zeroItem.typ zeroItem.val))
  | [x] =>
    if x.typ ≠ Tok.identifier then Except.error (errf x (EKind.noLabelInArg x.typ x.val))
    else Except.error (errf zeroItem (EKind.noColonAfterLabel zeroItem.typ zeroItem.val))
  | [x, x2] =>
    if x.typ ≠ Tok.identifier then Except.error (errf x (EKind.noLabelInArg x.typ x.val))
    else if x2.typ ≠ Tok.colon then Except.error (errf x2 (EKind.noColonAfterLabel x2.typ x2.val))
    else
      match lookup3 st zeroItem.val with
      | none => Except.error (errf zeroItem (EKind.undeclaredType zeroItem.val))
      | some _ => Except.error (errf zeroItem EKind.noComma)
  | [x, x2, x3] =>
    if x.typ ≠ Tok.identifier then Except.error (errf x (EKind.noLabelInArg x.typ x.val))
    else if x2.typ ≠ Tok.colon then Except.error (errf x2 (EKind.noColonAfterLabel x2.typ x2.val))
    else
      match lookup3 st x3.val with
      | none => Except.error (errf x3 (EKind.undeclaredType x3.val))
      | some _ => Except.error (errf zeroItem EKind.noComma)
  | x :: x2 :: x3 :: x4 :: s4 =>
    if x.typ ≠ Tok.identifier then Except.error (errf x (EKind.noLabelInArg x.typ x.val))
    else if x2.typ ≠ Tok.colon then Except.error (errf x2 (EKind.noColonAfterLabel x2.typ x2.val))
    else
      match lookup3 st x3.val with
      | none => Except.error (errf x3 (EKind.undeclaredType x3.val))
      | some vt =>
        let args' := upsertA args x.val vt
        if x4.typ = Tok.rightParen then Except.ok (args', s4)
        else if x4.typ ≠ Tok.comma then Except.error (errf x4 EKind.noComma)
        else handleParams st args' s4

/-- The per-field tail of the loop body of `processTypeNode` (union-capable
revision), starting after the optional argument list: the colon, the
optional `[`, the type identifier, the optional `]`, the three-stage type
lookup (note that on an undeclared list element type the interpolated `x.val`
is the text of the right bracket, as in the source), and the construction
and storage of the `graphql.Field` with its resolver looked up by the field
label alone. -/
def fieldRest (rs : List (String × Nat)) (st : PState) (fields : List (String × GField))
    (label : String) (params : Option (List (String × GType)))
    (x3 : Item) (s3 : List Item) : Except PErr (List (String × GField) × List Item) :=
  if x3.typ ≠ Tok.colon then Except.error (errf x3 (EKind.noColonOrParen x3.typ x3.val))
  else
    let (x4, _, s4) := pNext s3
    if x4.typ = Tok.leftBracket then
      let (x5, _, s5) := pNext s4
      if x5.typ ≠ Tok.identifier then Except.error (errf x5 (EKind.noTypeIdent x5.typ x5.val))
      else
        let (x6, _, s6) := pNext s5
        if x6.typ ≠ Tok.rightBracket then
          Except.error (errf x6 (EKind.noClosingBracket x6.typ x6.val))
        else
          match lookup3 st x5.val with
          | none => Except.error (errf x6 (EKind.undeclaredType x6.val))
          | some vt =>
            let fld := GField.mk (some (GType.listT (some vt))) params (lookupA rs label)
            Except.ok (upsertA fields label fld, s6)
    else
      if x4.typ ≠ Tok.identifier then Except.error (errf x4 (EKind.noTypeIdent x4.typ x4.val))
      else
        match lookup3 st x4.val with
        | none => Except.error (errf x4 (EKind.undeclaredType x4.val))
        | some vt =>
          let fld := GField.mk (some vt) params (lookupA rs label)
          Except.ok (upsertA fields label fld, s4)

/-- The field loop of `processTypeNode` (union-capable revision): read field
declarations until the block end.  The fuel parameter only bounds the number
of iterations; every iteration consumes at least one token, and every caller
supplies more fuel than the stream has tokens, so the `fuelOut` branch is
unreachable from `BuildSchemaConfig`. -/
def fieldsLoop (rs : List (String × Nat)) (st : PState) :
    Nat → List (String × GField) → List Item → Except PErr (List (String × GField) × List Item)
  | 0, _, _ => Except.error { line := 0, kind := EKind.fuelOut }
  | fuel + 1, fields, stream =>
    match stream with
    | [] => Except.error (errf zeroItem (EKind.noLabelAfterBlockStart zeroItem.typ zeroItem.val))
    | x :: s1 =>
      if x.typ = Tok.blockEnd then Except.ok (fields, s1)
      else if x.typ ≠ Tok.identifier then
        Except.error (errf x (EKind.noLabelAfterBlockStart x.typ x.val))
      else
        let (x2, _, s2) := pNext s1
        if x2.typ = Tok.leftParen then
          match handleParams st [] s2 with
          | Except.error e => Except.error e
          | Except.ok (ps, sA) =>
            let (x3, _, s3) := pNext sA
            match fieldRest rs st fields x.val (some ps) x3 s3 with
            | Except.error e => Except.error e
            | Except.ok (fields', s') => fieldsLoop rs st fuel fields' s'
        else
          match fieldRest rs st fields x.val none x2 s2 with
          | Except.error e => Except.error e
          | Except.ok (fields', s') => fieldsLoop rs st fuel fields' s'

/-- The `processTypeNode` of the union-capable revision: type name, block
start, field loop, then either install the root query object under the name
`RootQuery` (declaration named `Query`) or register the object in the
`objects` table under its own name. -/
def processTypeNode (rs : List (String × Nat)) (st : PState) (cfg : SchemaConfig)
    (stream : List Item) : Except PErr (PState × SchemaConfig × List Item) :=
  let (n, _, s1) := pNext stream
  if n.typ ≠ Tok.identifier then Except.error (errf n (EKind.noIdentAfterType n.typ n.val))
  else
    let (x, _, s2) := pNext s1
    if x.typ ≠ Tok.blockStart then Except.error (errf x (EKind.noBlockStart x.typ x.val))
    else
      match fieldsLoop rs st (s2.length + 1) [] s2 with
      | Except.error e => Except.error e
      | Except.ok (fields, s3) =>
        if n.val = "Query" then
          Except.ok (st, { cfg with query := some (GObject.mk "RootQuery" fields) }, s3)
        else
          Except.ok ({ st with objects := upsertA st.objects n.val (GObject.mk n.val fields) },
            cfg, s3)

/-- The member loop of `processUnionNode`: pipes may not double up or
directly precede the union terminator, members must be identifiers already
declared in the `objects` table, and members are collected in source
order. -/
def unionLoop (st : PState) (tys : List GObject) (lastispipe : Bool) :
    List Item → Except PErr (List GObject × List Item)
  | [] =>
    Except.error (errf zeroItem (EKind.noLabelAfterBlockStart zeroItem.typ zeroItem.val))
  | x :: rest =>
    if x.typ = Tok.pipe then
      if lastispipe then Except.error (errf x EKind.doublePipe)
      else unionLoop st tys true rest
    else if x.typ = Tok.unionEnd then
      if lastispipe then Except.error (errf x EKind.lastIsPipe)
      else Except.ok (tys, rest)
    else if x.typ ≠ Tok.identifier then
      Except.error (errf x (EKind.noLabelAfterBlockStart x.typ x.val))
    else
      match lookupA st.objects x.val with
      | none => Except.error (errf x (EKind.undeclaredObject x.val))
      | some o => unionLoop st (tys ++ [o]) false rest

/-- The `processUnionNode` of the union-capable revision: union name, the
`=` sign, the member loop, then registration of the union under its name. -/
def processUnionNode (st : PState) (stream : List Item) :
    Except PErr (PState × List Item) :=
  let (n, _, s1) := pNext stream
  if n.typ ≠ Tok.identifier then Except.error (errf n (EKind.noIdentAfterUnion n.typ n.val))
  else
    let (x, _, s2) := pNext s1
    if x.typ ≠ Tok.equal then Except.error (errf x (EKind.noEqualAfterUnion x.typ x.val))
    else
      match unionLoop st [] false s2 with
      | Except.error e => Except.error e
      | Except.ok (tys, s3) =>
        Except.ok ({ st with unions := upsertA st.unions n.val (GUnion.mk n.val tys) }, s3)

/-- The top loop of `BuildSchemaConfig` (union-capable revision): dispatch on
`itemEOF` / `itemType` / `itemUnion`; any other token is skipped.  Once the
stream is exhausted the loop reads zero items from the closed channel
forever — the `hung` outcome; the fuel exceeds the stream length, so `hung`
is reached exactly in that case. -/
def buildLoop (rs : List (String × Nat)) :
    Nat → PState → SchemaConfig → List Item → BuildResult × PState
  | 0, st, _, _ => (BuildResult.hung, st)
  | fuel + 1, st, cfg, stream =>
    let (n, _, s1) := pNext stream
    if n.typ = Tok.eofT then (BuildResult.returned cfg none, st)
    else if n.typ = Tok.typeK then
      match processTypeNode rs st cfg s1 with
      | Except.error e => (BuildResult.panicked e, st)
      | Except.ok (st', cfg', s') => buildLoop rs fuel st' cfg' s'
    else if n.typ = Tok.unionK then
      match processUnionNode st s1 with
      | Except.error e => (BuildResult.panicked e, st)
      | Except.ok (st', s') => buildLoop rs fuel st' cfg s'
    else buildLoop rs fuel st cfg s1

/-- The fresh `parseContext` tables of one build call. -/
def initPState : PState := { objects := [], unions := [] }

/-- One full build call: the returned value together with the final
`parseContext` tables (the tables are internal state of the call; they are
exposed here so theorems can observe the registered types). -/
def buildFull (schema : String) (resolvers : List (String × Nat)) : BuildResult × PState :=
  let items := tokenize schema
  buildLoop resolvers (items.length + 2) initPState { query := none } items

/-- `BuildSchemaConfig` of the union-capable revision, observed at its
boundary.  The constructor-time `backup()` makes the loop's first `next()`
return the zero-value `token[0]`, which matches no dispatch case; the loop
is therefore equivalently started directly on the scanned stream.  The body
installs no `recover` handler, so a parser panic escapes the call
(`BuildResult.panicked`), and a normal return always carries a nil error. -/
def BuildSchemaConfig (schema : String) (resolvers : List (String × Nat)) : BuildResult :=
  (buildFull schema resolvers).1

/-- Outcome of `MustBuildSchema` over an abstract schema type `σ`
(`graphql.Schema` is external). -/
inductive MustResult (σ : Type) where
  | value (v : σ)
  | panicked (e : PErr)
  | hung

/-- `MustBuildSchema`: build the config, hand it to the external
`graphql.NewSchema` (modelled as an abstract function returning a schema
value and an error), and discard both error results. -/
def MustBuildSchema {σ : Type} (schema : String) (resolvers : List (String × Nat))
    (newSchema : SchemaConfig → σ × Option String) : MustResult σ :=
  match BuildSchemaConfig schema resolvers with
  | BuildResult.returned cfg _err => MustResult.value (newSchema cfg).1
  | BuildResult.panicked e => MustResult.panicked e
  | BuildResult.hung => MustResult.hung

end Parse1

namespace Parse0

/-- The older parser revision (`parse.go`) keeps one `types` table holding
the built-in scalars and every registered object; it is seeded with
`builtinscalars` and grows as object types are declared. -/
def Types := List (String × GType)

/-- The `handleParams` of `parse.go`: unlike the field-type path below, an
argument whose type is not in the `types` table does fail, with the
`Not declared type (yet)` message. -/
def handleParams (types : Types) (args : List (String × GType)) :
    List Item → Except PErr (List (String × GType) × List Item)
  | [] => Except.error (errf zeroItem (EKind.noLabelInArg zeroItem.typ zeroItem.val))
  | [x] =>
    if x.typ ≠ Tok.identifier then Except.error (errf x (EKind.noLabelInArg x.typ x.val))
    else Except.error (errf zeroItem (EKind.noColonAfterLabel zeroItem.typ zeroItem.val))
  | [x, x2] =>
    if x.typ ≠ Tok.identifier then Except.error (errf x (EKind.noLabelInArg x.typ x.val))
    else if x2.typ ≠ Tok.colon then Except.error (errf x2 (EKind.noColonAfterLabel x2.typ x2.val))
    else
      match lookupA types zeroItem.val with
      | none => Except.error (errf zeroItem (EKind.undeclaredTypeV0 zeroItem.val))
      | some _ => Except.error (errf zeroItem EKind.noComma)
  | [x, x2, x3] =>
    if x.typ ≠ Tok.identifier then Except.error (errf x (EKind.noLabelInArg x.typ x.val))
    else if x2.typ ≠ Tok.colon then Except.error (errf x2 (EKind.noColonAfterLabel x2.typ x2.val))
    else
      match lookupA types x3.val with
      | none => Except.error (errf x3 (EKind.undeclaredTypeV0 x3.val))
      | some _ => Except.error (errf zeroItem EKind.noComma)
  | x :: x2 :: x3 :: x4 :: s4 =>
    if x.typ ≠ Tok.identifier then Except.error (errf x (EKind.noLabelInArg x.typ x.val))
    else if x2.typ ≠ Tok.colon then Except.error (errf x2 (EKind.noColonAfterLabel x2.typ x2.val))
    else
      match lookupA types x3.val with
      | none => Except.error (errf x3 (EKind.undeclaredTypeV0 x3.val))
      | some vt =>
        let args' := upsertA args x.val vt
        if x4.typ = Tok.rightParen then Except.ok (args', s4)
        else if x4.typ ≠ Tok.comma then Except.error (errf x4 EKind.noComma)
        else handleParams types args' s4

/-- The per-field tail of the loop body of `processTypeNode` in `parse.go`.
The `if _, ok := types[tname]; !ok` branch of the source is empty: a field
whose type name is not in the table is stored with a nil `Type` and no
error; in the list case `graphql.NewList(types[tname])` likewise wraps the
possibly-nil lookup. -/
def fieldRest (rs : List (String × Nat)) (types : Types) (fields : List (String × GField))
    (label : String) (params : Option (List (String × GType)))
    (x3 : Item) (s3 : List Item) : Except PErr (List (String × GField) × List Item) :=
  if x3.typ ≠ Tok.colon then Except.error (errf x3 (EKind.noColonOrParen x3.typ x3.val))
  else
    let (x4, _, s4) := pNext s3
    if x4.typ = Tok.leftBracket then
      let (x5, _, s5) := pNext s4
      if x5.typ ≠ Tok.identifier then Except.error (errf x5 (EKind.noTypeIdent x5.typ x5.val))
      else
        let (x6, _, s6) := pNext s5
        if x6.typ ≠ Tok.rightBracket then
          Except.error (errf x6 (EKind.noClosingBracket x6.typ x6.val))
        else
          let fld := GField.mk (some (GType.listT (lookupA types x5.val))) params
            (lookupA rs label)
          Except.ok (upsertA fields label fld, s6)
    else
      if x4.typ ≠ Tok.identifier then Except.error (errf x4 (EKind.noTypeIdent x4.typ x4.val))
      else
        let fld := GField.mk (lookupA types x4.val) params (lookupA rs label)
        Except.ok (upsertA fields label fld, s4)

/-- The field loop of `processTypeNode` in `parse.go` (fuelled like its
`Parse1` counterpart; the `fuelOut` branch is unreachable from the build
entry point). -/
def fieldsLoop (rs : List (String × Nat)) (types : Types) :
    Nat → List (String × GField) → List Item → Except PErr (List (String × GField) × List Item)
  | 0, _, _ => Except.error { line := 0, kind := EKind.fuelOut }
  | fuel + 1, fields, stream =>
    match stream with
    | [] => Except.error (errf zeroItem (EKind.noLabelAfterBlockStart zeroItem.typ zeroItem.val))
    | x :: s1 =>
      if x.typ = Tok.blockEnd then Except.ok (fields, s1)
      else if x.typ ≠ Tok.identifier then
        Except.error (errf x (EKind.noLabelAfterBlockStart x.typ x.val))
      else
        let (x2, _, s2) := pNext s1
        if x2.typ = Tok.leftParen then
          match handleParams types [] s2 with
          | Except.error e => Except.error e
          | Except.ok (ps, sA) =>
            let (x3, _, s3) := pNext sA
            match fieldRest rs types fields x.val (some ps) x3 s3 with
            | Except.error e => Except.error e
            | Except.ok (fields', s') => fieldsLoop rs types fuel fields' s'
        else
          match fieldRest rs types fields x.val none x2 s2 with
          | Except.error e => Except.error e
          | Except.ok (fields', s') => fieldsLoop rs types fuel fields' s'

/-- The `processTypeNode` of `parse.go`: as in the union-capable revision, a
declaration named `Query` becomes the root query object (named `RootQuery`)
and is not registered; any other declaration is stored into the `types`
table. -/
def processTypeNode (rs : List (String × Nat)) (types : Types) (cfg : SchemaConfig)
    (stream : List Item) : Except PErr (Types × SchemaConfig × List Item) :=
  let (n, _, s1) := pNext stream
  if n.typ ≠ Tok.identifier then Except.error (errf n (EKind.noIdentAfterType n.typ n.val))
  else
    let (x, _, s2) := pNext s1
    if x.typ ≠ Tok.blockStart then Except.error (errf x (EKind.noBlockStart x.typ x.val))
    else
      match fieldsLoop rs types (s2.length + 1) [] s2 with
      | Except.error e => Except.error e
      | Except.ok (fields, s3) =>
        if n.val = "Query" then
          Except.ok (types, { cfg with query := some (GObject.mk "RootQuery" fields) }, s3)
        else
          Except.ok (upsertA types n.val (GType.object (GObject.mk n.val fields)), cfg, s3)

/-- The top loop of `BuildSchemaConfig` in `parse.go`: dispatch on `itemEOF`
and `itemType` only. -/
def buildLoop (rs : List (String × Nat)) :
    Nat → Types → SchemaConfig → List Item → BuildResult × Types
  | 0, types, _, _ => (BuildResult.hung, types)
  | fuel + 1, types, cfg, stream =>
    let (n, _, s1) := pNext stream
    if n.typ = Tok.eofT then (BuildResult.returned cfg none, types)
    else if n.typ = Tok.typeK then
      match processTypeNode rs types cfg s1 with
      | Except.error e => (BuildResult.panicked e, types)
      | Except.ok (types', cfg', s') => buildLoop rs fuel types' cfg' s'
    else buildLoop rs fuel types cfg s1

/-- One full `parse.go` build call, exposing the final `types` table. -/
def buildFull (schema : String) (resolvers : List (String × Nat)) : BuildResult × Types :=
  let items := tokenize schema
  buildLoop resolvers (items.length + 2) builtinscalars { query := none } items

/-- `BuildSchemaConfig` of `parse.go`, observed at its boundary (no
`recover` handler is installed here either). -/
def BuildSchemaConfig (schema : String) (resolvers : List (String × Nat)) : BuildResult :=
  (buildFull schema resolvers).1

end Parse0

namespace Gen

/-- A raw type reference of the `graphql-go` AST as consumed by `getGoType`
in `gen.go`: named, list, or non-null. -/
inductive GTypeRef where
  | named (n : String)
  | listOf (t : GTypeRef)
  | nonNull (t : GTypeRef)
deriving DecidableEq, Repr

/-- An `ObjectDefinition` of the schema document, reduced to what name
resolution consumes: the declared name and the field name/type pairs.
(The other declaration kinds publish and resolve names through the same
`setGoName`/`getGoName` pair; object definitions suffice to settle the
claims.) -/
structure ObjDecl where
  name : String
  fields : List (String × GTypeRef)
deriving DecidableEq, Repr

/-- The built-in-scalar short circuit at the top of `getGoName`. -/
def builtinName (orig : String) : Option String :=
  if orig = "String" ∨ orig = "ID" ∨ orig = "Int" ∨ orig = "Float" ∨ orig = "Boolean" then
    some ("graphql." ++ orig)
  else none

/-- The Go variable name a declaration publishes for itself in
`processObject` (`rootQuery`/`rootMutation` for the reserved names). -/
def varNameOf (d : ObjDecl) : String :=
  if d.name = "Query" then "rootQuery"
  else if d.name = "Mutation" then "rootMutation"
  else d.name.toLower ++ "Object"

/-- The `defs` map after every task has called `setGoName`.  Every task
publishes its own name before resolving any field type (in `processObject`,
`setGoName` precedes the field loop), so the full map is available to every
lookup that completes. -/
def defsOf (decls : List ObjDecl) : List (String × String) :=
  decls.map (fun d => (d.name, varNameOf d))

/-- `getGoName` as observed by a task: a built-in resolves immediately;
a declared name resolves once its owner has published it; `none` means the
caller blocks forever on a per-name channel that no task will ever close
(`gen.go` has no check for signals that were created but never fired). -/
def getGoName (decls : List ObjDecl) (orig : String) : Option String :=
  match builtinName orig with
  | some s => s
  | none => lookupA (defsOf decls) orig

/-- `getGoType` of `gen.go`: build the Go expression string for a type
reference, blocking (`none`) whenever the underlying name lookup blocks. -/
def getGoType (decls : List ObjDecl) : GTypeRef → Option String
  | GTypeRef.named n => getGoName decls n
  | GTypeRef.listOf t => (getGoType decls t).map (fun s => "graphql.NewList(" ++ s ++ ")")
  | GTypeRef.nonNull t => (getGoType decls t).map (fun s => "graphql.NewNonNull(" ++ s ++ ")")

/-- Outcome of `processAST` followed by the WaitGroup join: either every
task ran to completion (the published name map is available), or some task
is blocked forever on an unfired per-name signal and `processAST` never
returns. -/
inductive GenOutcome where
  | completes (defs : List (String × String))
  | hangs
deriving DecidableEq, Repr

/-- `processAST` of `gen.go`: one goroutine per declaration, all joined by a
WaitGroup.  Each task publishes its name first and then resolves its field
references through `getGoName`, which blocks until the referenced name is
published; a reference no declaration ever defines therefore blocks its task
forever and the join never completes — the generator hangs instead of
reporting the undeclared name. -/
def processAST (decls : List ObjDecl) : GenOutcome :=
  if decls.all (fun d => d.fields.all (fun f => (getGoType decls f.2).isSome)) then
    GenOutcome.completes (defsOf decls)
  else GenOutcome.hangs

end Gen

/-! ### Independence of the scan from the residual global mode stack (C8) -/

/-- Effective top of a stack decomposed as `d ++ schemaS :: t`. -/
def headDS (d : List StName) : StName :=
  match d with
  | [] => StName.schemaS
  | a :: _ => a

/-- Action of `pushS` on the scan-owned part of a decomposed stack. -/
def pushD (f : StName) (d : List StName) : List StName :=
  match d with
  | [] => if f = StName.schemaS then [] else [f]
  | a :: d' => if a = f then a :: d' else f :: a :: d'

theorem head_append (d t : List StName) :
    (d ++ StName.schemaS :: t : Stack).head? = some (headDS d) := by
  cases d <;> rfl

theorem pushS_append (f : StName) (d t : List StName) :
    pushS f (d ++ StName.schemaS :: t) = pushD f d ++ StName.schemaS :: t := by
  cases d with
  | nil =>
    simp only [List.nil_append, pushS, pushD]
    by_cases hf : f = StName.schemaS
    · subst hf; simp
    · rw [if_neg (fun h => hf h.symm), if_neg hf, List.cons_append, List.nil_append]
  | cons a d' =>
    simp only [List.cons_append, pushS, pushD]
    by_cases ha : a = f
    · rw [if_pos ha, if_pos ha, List.cons_append]
    · rw [if_neg ha, if_neg ha]
      rfl

theorem goLast_append (c : Core) (d t : List StName) :
    goLast c (d ++ StName.schemaS :: t) =
      (c, d ++ StName.schemaS :: t, some (ctlOf (headDS d))) := by
  cases d <;> rfl

/-- Constraint on the scan-owned part of the stack needed at the given
control point (loop states must own their mode entry, so that the pop at the
closing delimiter cannot reach below the scan's base). -/
def dOkC : Ctl → List StName → Prop
  | Ctl.blockLoopC _, d => d.head? = some StName.blockS
  | Ctl.argsLoopC _, d => d.head? = some StName.argsS
  | _, _ => True

theorem dOk_ctlOf (n : StName) (d : List StName) : dOkC (ctlOf n) d := by
  cases n <;> trivial

/-- Two global stacks are interchangeable at a control point when they agree
on the scan-owned prefix above a `lexSchema` base entry; at the `lexSchema`
entry point itself any two stacks are interchangeable (that state pushes
before it ever reads the stack). -/
def StkRel (ctl : Ctl) (s1 s2 : Stack) : Prop :=
  ctl = Ctl.schemaC ∨
    ∃ d t1 t2, s1 = d ++ StName.schemaS :: t1 ∧ s2 = d ++ StName.schemaS :: t2 ∧ dOkC ctl d

theorem StkRel.decomp {ctl : Ctl} {s1 s2 : Stack} (h : StkRel ctl s1 s2)
    (hne : ctl ≠ Ctl.schemaC) :
    ∃ d t1 t2, s1 = d ++ StName.schemaS :: t1 ∧ s2 = d ++ StName.schemaS :: t2 ∧ dOkC ctl d := by
  rcases h with h | h
  · exact absurd h hne
  · exact h

theorem pushS_schema_shape (s : Stack) :
    ∃ t, pushS StName.schemaS s = StName.schemaS :: t := by
  cases s with
  | nil => exact ⟨[], rfl⟩
  | cons a s' =>
    by_cases ha : a = StName.schemaS
    · subst ha; exact ⟨s', by simp [pushS]⟩
    · refine ⟨a :: s', ?_⟩
      simp only [pushS]
      rw [if_neg ha]

/-- Stack effect of one iteration of a Block/Args loop state: either the
stack is untouched and scanning continues at a fixed control point (or
stops), or the mode is popped and control returns to `last()`. -/
inductive LoopEff where
  | stay (o : Option Ctl)
  | popLast

/-- Interpretation of a `LoopEff` against a concrete stack. -/
def applyLoopEff (cc : Core) (e : LoopEff) (s : Stack) : Core × Stack × Option Ctl :=
  match e with
  | LoopEff.stay o => (cc, s, o)
  | LoopEff.popLast => goLast cc (popS s)

theorem argsEff (sl : Nat) (c : Core) :
    ∃ cc e, (∀ s, stepArgs sl c s = applyLoopEff cc e s) ∧
      ∀ ctl', e = LoopEff.stay (some ctl') →
        ctl' = Ctl.identC ∨ ctl' = Ctl.commentC ∨ ctl' = Ctl.argsLoopC sl := by
  cases hpk : peekc c with
  | none =>
    exact ⟨_, LoopEff.stay none, fun s => by rw [stepArgs, hpk]; rfl, fun _ h => nomatch h⟩
  | some r =>
    by_cases h1 : isAlphaNum r = true
    · exact ⟨_, LoopEff.stay (some Ctl.identC), fun s => by
        rw [stepArgs, hpk]; simp only [argsRune]; rw [if_pos h1]; rfl,
        fun ctl' h => by cases h; exact Or.inl rfl⟩
    · by_cases h2 : isSpaceC r = true
      · exact ⟨_, LoopEff.stay (some (Ctl.argsLoopC sl)), fun s => by
          rw [stepArgs, hpk]; simp only [argsRune]; rw [if_neg h1, if_pos h2]; rfl,
          fun ctl' h => by cases h; exact Or.inr (Or.inr rfl)⟩
      · by_cases h3 : (r == '#') = true
        · exact ⟨_, LoopEff.stay (some Ctl.commentC), fun s => by
            rw [stepArgs, hpk]; simp only [argsRune]; rw [if_neg h1, if_neg h2, if_pos h3]; rfl,
            fun ctl' h => by cases h; exact Or.inr (Or.inl rfl)⟩
        · by_cases h4 : (r == '\n') = true
          · exact ⟨_, LoopEff.stay (some (Ctl.argsLoopC sl)), fun s => by
              rw [stepArgs, hpk]; simp only [argsRune]
              rw [if_neg h1, if_neg h2, if_neg h3, if_pos h4]; rfl,
              fun ctl' h => by cases h; exact Or.inr (Or.inr rfl)⟩
          · by_cases h5 : (r == ':') = true
            · exact ⟨_, LoopEff.stay (some (Ctl.argsLoopC sl)), fun s => by
                rw [stepArgs, hpk]; simp only [argsRune]
                rw [if_neg h1, if_neg h2, if_neg h3, if_neg h4, if_pos h5]; rfl,
                fun ctl' h => by cases h; exact Or.inr (Or.inr rfl)⟩
            · by_cases h6 : (r == ',') = true
              · exact ⟨_, LoopEff.stay (some (Ctl.argsLoopC sl)), fun s => by
                  rw [stepArgs, hpk]; simp only [argsRune]
                  rw [if_neg h1, if_neg h2, if_neg h3, if_neg h4, if_neg h5, if_pos h6]; rfl,
                  fun ctl' h => by cases h; exact Or.inr (Or.inr rfl)⟩
              · by_cases h7 : (r == '!') = true
                · exact ⟨_, LoopEff.stay (some (Ctl.argsLoopC sl)), fun s => by
                    rw [stepArgs, hpk]; simp only [argsRune]
                    rw [if_neg h1, if_neg h2, if_neg h3, if_neg h4, if_neg h5, if_neg h6,
                      if_pos h7]; rfl,
                    fun ctl' h => by cases h; exact Or.inr (Or.inr rfl)⟩
                · by_cases h8 : (r == '[') = true
                  · exact ⟨_, LoopEff.stay (some (Ctl.argsLoopC sl)), fun s => by
                      rw [stepArgs, hpk]; simp only [argsRune]
                      rw [if_neg h1, if_neg h2, if_neg h3, if_neg h4, if_neg h5, if_neg h6,
                        if_neg h7, if_pos h8]; rfl,
                      fun ctl' h => by cases h; exact Or.inr (Or.inr rfl)⟩
                  · by_cases h9 : (r == ']') = true
                    · by_cases h9d :
                        ({ emitI Tok.rightBracket (adv c r) with
                          parenDepth := c.parenDepth - 1 } : Core).parenDepth < 0
                      · exact ⟨_, LoopEff.stay none, fun s => by
                          rw [stepArgs, hpk]; simp only [argsRune]
                          rw [if_neg h1, if_neg h2, if_neg h3, if_neg h4, if_neg h5,
                            if_neg h6, if_neg h7, if_neg h8, if_pos h9, if_pos h9d]; rfl,
                          fun _ h => nomatch h⟩
                      · exact ⟨_, LoopEff.stay (some (Ctl.argsLoopC sl)), fun s => by
                          rw [stepArgs, hpk]; simp only [argsRune]
                          rw [if_neg h1, if_neg h2, if_neg h3, if_neg h4, if_neg h5,
                            if_neg h6, if_neg h7, if_neg h8, if_pos h9, if_neg h9d]; rfl,
                          fun ctl' h => by cases h; exact Or.inr (Or.inr rfl)⟩
                    · by_cases h10 : (r == ')') = true
                      · exact ⟨_, LoopEff.popLast, fun s => by
                          rw [stepArgs, hpk]; simp only [argsRune]
                          rw [if_neg h1, if_neg h2, if_neg h3, if_neg h4, if_neg h5,
                            if_neg h6, if_neg h7, if_neg h8, if_neg h9, if_pos h10]; rfl,
                          fun _ h => nomatch h⟩
                      · exact ⟨_, LoopEff.stay (some (Ctl.argsLoopC sl)), fun s => by
                          rw [stepArgs, hpk]; simp only [argsRune]
                          rw [if_neg h1, if_neg h2, if_neg h3, if_neg h4, if_neg h5,
                            if_neg h6, if_neg h7, if_neg h8, if_neg h9, if_neg h10]; rfl,
                          fun ctl' h => by cases h; exact Or.inr (Or.inr rfl)⟩

theorem blockEff (sl : Nat) (c : Core) :
    ∃ cc e, (∀ s, blockRune sl (peekc c) c s = applyLoopEff cc e s) ∧
      ∀ ctl', e = LoopEff.stay (some ctl') →
        ctl' = Ctl.identC ∨ ctl' = Ctl.commentC ∨ ctl' = Ctl.argsEnterC ∨
          ctl' = Ctl.blockLoopC sl := by
  cases hpk : peekc c with
  | none =>
    exact ⟨_, LoopEff.stay none, fun s => by rfl, fun _ h => nomatch h⟩
  | some r =>
    by_cases h1 : isAlphaNum r = true
    · exact ⟨_, LoopEff.stay (some Ctl.identC), fun s => by
        simp only [blockRune]; rw [if_pos h1]; rfl,
        fun ctl' h => by cases h; exact Or.inl rfl⟩
    · by_cases h2 : isSpaceC r = true
      · exact ⟨_, LoopEff.stay (some (Ctl.blockLoopC sl)), fun s => by
          simp only [blockRune]; rw [if_neg h1, if_pos h2]; rfl,
          fun ctl' h => by cases h; exact Or.inr (Or.inr (Or.inr rfl))⟩
      · by_cases h3 : (r == '#') = true
        · exact ⟨_, LoopEff.stay (some Ctl.commentC), fun s => by
            simp only [blockRune]; rw [if_neg h1, if_neg h2, if_pos h3]; rfl,
            fun ctl' h => by cases h; exact Or.inr (Or.inl rfl)⟩
        · by_cases h4 : (r == '\n') = true
          · exact ⟨_, LoopEff.stay (some (Ctl.blockLoopC sl)), fun s => by
              simp only [blockRune]
              rw [if_neg h1, if_neg h2, if_neg h3, if_pos h4]; rfl,
              fun ctl' h => by cases h; exact Or.inr (Or.inr (Or.inr rfl))⟩
          · by_cases h5 : (r == ':') = true
            · exact ⟨_, LoopEff.stay (some (Ctl.blockLoopC sl)), fun s => by
                simp only [blockRune]
                rw [if_neg h1, if_neg h2, if_neg h3, if_neg h4, if_pos h5]; rfl,
                fun ctl' h => by cases h; exact Or.inr (Or.inr (Or.inr rfl))⟩
            · by_cases h6 : (r == '!') = true
              · exact ⟨_, LoopEff.stay (some (Ctl.blockLoopC sl)), fun s => by
                  simp only [blockRune]
                  rw [if_neg h1, if_neg h2, if_neg h3, if_neg h4, if_neg h5, if_pos h6]; rfl,
                  fun ctl' h => by cases h; exact Or.inr (Or.inr (Or.inr rfl))⟩
              · by_cases h7 : (r == '=') = true
                · exact ⟨_, LoopEff.stay (some (Ctl.blockLoopC sl)), fun s => by
                    simp only [blockRune]
                    rw [if_neg h1, if_neg h2, if_neg h3, if_neg h4, if_neg h5, if_neg h6,
                      if_pos h7]; rfl,
                    fun ctl' h => by cases h; exact Or.inr (Or.inr (Or.inr rfl))⟩
                · by_cases h8 : (r == '(') = true
                  · exact ⟨_, LoopEff.stay (some Ctl.argsEnterC), fun s => by
                      simp only [blockRune]
                      rw [if_neg h1, if_neg h2, if_neg h3, if_neg h4, if_neg h5, if_neg h6,
                        if_neg h7, if_pos h8]; rfl,
                      fun ctl' h => by cases h; exact Or.inr (Or.inr (Or.inl rfl))⟩
                  · by_cases h9 : (r == '[') = true
                    · exact ⟨_, LoopEff.stay (some (Ctl.blockLoopC sl)), fun s => by
                        simp only [blockRune]
                        rw [if_neg h1, if_neg h2, if_neg h3, if_neg h4, if_neg h5,
                          if_neg h6, if_neg h7, if_neg h8, if_pos h9]; rfl,
                        fun ctl' h => by cases h; exact Or.inr (Or.inr (Or.inr rfl))⟩
                    · by_cases h10 : (r == ']') = true
                      · by_cases h10d :
                          ({ emitI Tok.rightBracket (adv c r) with
                            parenDepth := c.parenDepth - 1 } : Core).parenDepth < 0
                        · exact ⟨_, LoopEff.stay none, fun s => by
                            simp only [blockRune]
                            rw [if_neg h1, if_neg h2, if_neg h3, if_neg h4, if_neg h5,
                              if_neg h6, if_neg h7, if_neg h8, if_neg h9, if_pos h10,
                              if_pos h10d]; rfl,
                            fun _ h => nomatch h⟩
                        · exact ⟨_, LoopEff.stay (some (Ctl.blockLoopC sl)), fun s => by
                            simp only [blockRune]
                            rw [if_neg h1, if_neg h2, if_neg h3, if_neg h4, if_neg h5,
                              if_neg h6, if_neg h7, if_neg h8, if_neg h9, if_pos h10,
                              if_neg h10d]; rfl,
                            fun ctl' h => by cases h; exact Or.inr (Or.inr (Or.inr rfl))⟩
                      · by_cases h11 : r = rbrace
                        · exact ⟨_, LoopEff.popLast, fun s => by
                            simp only [blockRune]
                            rw [if_neg h1, if_neg h2, if_neg h3, if_neg h4, if_neg h5,
                              if_neg h6, if_neg h7, if_neg h8, if_neg h9, if_neg h10,
                              if_pos h11]; rfl,
                            fun _ h => nomatch h⟩
                        · exact ⟨_, LoopEff.stay (some (Ctl.blockLoopC sl)), fun s => by
                            simp only [blockRune]
                            rw [if_neg h1, if_neg h2, if_neg h3, if_neg h4, if_neg h5,
                              if_neg h6, if_neg h7, if_neg h8, if_neg h9, if_neg h10,
                              if_neg h11]; rfl,
                            fun ctl' h => by cases h; exact Or.inr (Or.inr (Or.inr rfl))⟩

theorem pushD_head (f : StName) (d : List StName) (hf : f ≠ StName.schemaS) :
    (pushD f d).head? = some f := by
  cases d with
  | nil => simp [pushD, hf]
  | cons a d' =>
    by_cases ha : a = f <;> simp [pushD, ha]

theorem identFinish_rel (c : Core) (d t1 t2 : List StName) :
    ∃ c' o, identFinish c (d ++ StName.schemaS :: t1) = (c', d ++ StName.schemaS :: t1, o) ∧
      identFinish c (d ++ StName.schemaS :: t2) = (c', d ++ StName.schemaS :: t2, o) ∧
      ∀ ctl', o = some ctl' → dOkC ctl' d := by
  unfold identFinish
  by_cases hu :
      (match keyTok (String.mk (sliceL c)) with
        | some k => k
        | none => Tok.identifier) = Tok.unionK
  · rw [if_pos hu, if_pos hu]
    exact ⟨_, _, rfl, rfl, fun _ h => by cases h; trivial⟩
  · rw [if_neg hu, if_neg hu, goLast_append, goLast_append]
    exact ⟨_, _, rfl, rfl, fun ctl' h => by cases h; exact dOk_ctlOf _ _⟩

theorem stepOnce_rel (ctl : Ctl) (c : Core) (s1 s2 : Stack) (h : StkRel ctl s1 s2) :
    ∃ c' o s1' s2', stepOnce ctl c s1 = (c', s1', o) ∧ stepOnce ctl c s2 = (c', s2', o) ∧
      ∀ ctl', o = some ctl' → StkRel ctl' s1' s2' := by
  cases ctl with
  | schemaC =>
    clear h
    cases hpk : peekc c with
    | none =>
      refine ⟨emitI Tok.eofT c, none, pushS StName.schemaS s1,
        pushS StName.schemaS s2, ?_, ?_, fun _ h => nomatch h⟩ <;>
        simp only [stepOnce, stepSchema, hpk]
    | some r =>
      obtain ⟨ta, hta⟩ := pushS_schema_shape s1
      obtain ⟨tb, htb⟩ := pushS_schema_shape s2
      simp only [stepOnce, stepSchema, hpk]
      split
      · exact ⟨_, _, _, _, rfl, rfl, fun ctl' ho => by cases ho; exact Or.inl rfl⟩
      · split
        · exact ⟨_, _, _, _, rfl, rfl, fun ctl' ho => by
            cases ho; exact Or.inr ⟨[], ta, tb, hta, htb, trivial⟩⟩
        · split
          · exact ⟨_, _, _, _, rfl, rfl, fun ctl' ho => by
              cases ho; exact Or.inr ⟨[], ta, tb, hta, htb, trivial⟩⟩
          · split
            · exact ⟨_, _, _, _, rfl, rfl, fun ctl' ho => by
                cases ho; exact Or.inr ⟨[], ta, tb, hta, htb, trivial⟩⟩
            · refine ⟨_, none, _, _, rfl, rfl, fun _ ho => nomatch ho⟩
  | commentC =>
    obtain ⟨d, t1, t2, rfl, rfl, hd⟩ := h.decomp (fun hh => nomatch hh)
    cases hpk : peekc c with
    | none =>
      simp only [stepOnce, stepComment, hpk]
      rw [goLast_append, goLast_append]
      exact ⟨_, _, _, _, rfl, rfl, fun ctl' ho => by
        cases ho; exact Or.inr ⟨d, t1, t2, rfl, rfl, dOk_ctlOf _ _⟩⟩
    | some r =>
      simp only [stepOnce, stepComment, hpk]
      split
      · rw [goLast_append, goLast_append]
        exact ⟨_, _, _, _, rfl, rfl, fun ctl' ho => by
          cases ho; exact Or.inr ⟨d, t1, t2, rfl, rfl, dOk_ctlOf _ _⟩⟩
      · exact ⟨_, _, _, _, rfl, rfl, fun ctl' ho => by
          cases ho; exact Or.inr ⟨d, t1, t2, rfl, rfl, trivial⟩⟩
  | identC =>
    obtain ⟨d, t1, t2, rfl, rfl, hd⟩ := h.decomp (fun hh => nomatch hh)
    cases hpk : peekc c with
    | none =>
      obtain ⟨c', o, h1, h2, hdok⟩ := identFinish_rel c d t1 t2
      refine ⟨c', o, _, _, ?_, ?_, fun ctl' ho => Or.inr ⟨d, t1, t2, rfl, rfl, hdok ctl' ho⟩⟩ <;>
        simp only [stepOnce, stepIdent, hpk] <;> assumption
    | some r =>
      simp only [stepOnce, stepIdent, hpk]
      split
      · exact ⟨_, _, _, _, rfl, rfl, fun ctl' ho => by
          cases ho; exact Or.inr ⟨d, t1, t2, rfl, rfl, trivial⟩⟩
      · split
        · obtain ⟨c', o, h1, h2, hdok⟩ := identFinish_rel c d t1 t2
          exact ⟨c', o, _, _, h1, h2, fun ctl' ho => Or.inr ⟨d, t1, t2, rfl, rfl, hdok ctl' ho⟩⟩
        · refine ⟨_, none, _, _, rfl, rfl, fun _ ho => nomatch ho⟩
  | unionC =>
    obtain ⟨d, t1, t2, rfl, rfl, hd⟩ := h.decomp (fun hh => nomatch hh)
    cases hpk : peekc c with
    | none =>
      simp only [stepOnce, stepUnion, hpk]
      rw [goLast_append, goLast_append]
      exact ⟨_, _, _, _, rfl, rfl, fun ctl' ho => by
        cases ho; exact Or.inr ⟨d, t1, t2, rfl, rfl, dOk_ctlOf _ _⟩⟩
    | some r =>
      simp only [stepOnce, stepUnion, hpk]
      split
      · exact ⟨_, _, _, _, rfl, rfl, fun ctl' ho => by
          cases ho; exact Or.inr ⟨d, t1, t2, rfl, rfl, trivial⟩⟩
      · split
        · exact ⟨_, _, _, _, rfl, rfl, fun ctl' ho => by
            cases ho; exact Or.inr ⟨d, t1, t2, rfl, rfl, trivial⟩⟩
        · split
          · exact ⟨_, _, _, _, rfl, rfl, fun ctl' ho => by
              cases ho; exact Or.inr ⟨d, t1, t2, rfl, rfl, trivial⟩⟩
          · split
            · exact ⟨_, _, _, _, rfl, rfl, fun ctl' ho => by
                cases ho; exact Or.inr ⟨d, t1, t2, rfl, rfl, trivial⟩⟩
            · split
              · rw [goLast_append, goLast_append]
                exact ⟨_, _, _, _, rfl, rfl, fun ctl' ho => by
                  cases ho; exact Or.inr ⟨d, t1, t2, rfl, rfl, dOk_ctlOf _ _⟩⟩
              · refine ⟨_, none, _, _, rfl, rfl, fun _ ho => nomatch ho⟩
  | unionIdentC =>
    obtain ⟨d, t1, t2, rfl, rfl, hd⟩ := h.decomp (fun hh => nomatch hh)
    cases hpk : peekc c with
    | none =>
      refine ⟨emitI Tok.identifier c, some Ctl.unionC, _, _, ?_, ?_,
          fun ctl' ho => by cases ho; exact Or.inr ⟨d, t1, t2, rfl, rfl, trivial⟩⟩ <;>
        simp only [stepOnce, stepUnionIdent, hpk]
    | some r =>
      simp only [stepOnce, stepUnionIdent, hpk]
      split
      · exact ⟨_, _, _, _, rfl, rfl, fun ctl' ho => by
          cases ho; exact Or.inr ⟨d, t1, t2, rfl, rfl, trivial⟩⟩
      · split
        · exact ⟨_, _, _, _, rfl, rfl, fun ctl' ho => by
            cases ho; exact Or.inr ⟨d, t1, t2, rfl, rfl, trivial⟩⟩
        · refine ⟨_, none, _, _, rfl, rfl, fun _ ho => nomatch ho⟩
  | blockEnterC =>
    obtain ⟨d, t1, t2, rfl, rfl, hd⟩ := h.decomp (fun hh => nomatch hh)
    simp only [stepOnce, stepBlockEnter]
    rw [pushS_append, pushS_append]
    exact ⟨_, _, _, _, rfl, rfl, fun ctl' ho => by
      cases ho
      exact Or.inr ⟨_, t1, t2, rfl, rfl, pushD_head _ _ (by decide)⟩⟩
  | blockLoopC sl =>
    obtain ⟨d, t1, t2, rfl, rfl, hd⟩ := h.decomp (fun hh => nomatch hh)
    obtain ⟨a, d', rfl⟩ : ∃ a d', d = a :: d' := by
      cases d with
      | nil => exact absurd hd (by simp [dOkC])
      | cons a d' => exact ⟨a, d', rfl⟩
    have ha : a = StName.blockS := by simpa [dOkC] using hd
    subst ha
    by_cases h3 : hasPre3q (c.input.drop c.pos) = true
    · refine ⟨c, some Ctl.strLitC, StName.blockS :: d' ++ StName.schemaS :: t1,
          StName.blockS :: d' ++ StName.schemaS :: t2, ?_, ?_,
          fun ctl' ho => by
            cases ho; exact Or.inr ⟨StName.blockS :: d', t1, t2, rfl, rfl, trivial⟩⟩ <;>
        simp only [stepOnce, stepBlock, h3, if_true]
    · obtain ⟨cc, e, he, hok⟩ := blockEff sl c
      have e1 := he (StName.blockS :: d' ++ StName.schemaS :: t1)
      have e2 := he (StName.blockS :: d' ++ StName.schemaS :: t2)
      cases e with
      | stay o =>
        simp only [applyLoopEff] at e1 e2
        refine ⟨cc, o, StName.blockS :: d' ++ StName.schemaS :: t1,
          StName.blockS :: d' ++ StName.schemaS :: t2, ?_, ?_, fun ctl' ho => ?_⟩
        · simp only [stepOnce]; rw [stepBlock, if_neg h3]; exact e1
        · simp only [stepOnce]; rw [stepBlock, if_neg h3]; exact e2
        · rcases hok ctl' (by rw [ho]) with h | h | h | h <;> subst h
          · exact Or.inr ⟨StName.blockS :: d', t1, t2, rfl, rfl, trivial⟩
          · exact Or.inr ⟨StName.blockS :: d', t1, t2, rfl, rfl, trivial⟩
          · exact Or.inr ⟨StName.blockS :: d', t1, t2, rfl, rfl, trivial⟩
          · exact Or.inr ⟨StName.blockS :: d', t1, t2, rfl, rfl, hd⟩
      | popLast =>
        simp only [applyLoopEff, List.cons_append, popS, List.tail_cons] at e1 e2
        rw [goLast_append] at e1 e2
        refine ⟨cc, some (ctlOf (headDS d')), d' ++ StName.schemaS :: t1,
          d' ++ StName.schemaS :: t2, ?_, ?_, fun ctl' ho => ?_⟩
        · simp only [stepOnce]; rw [stepBlock, if_neg h3]
          rw [show ((StName.blockS :: d' : List StName) ++ StName.schemaS :: t1 : Stack) =
            StName.blockS :: (d' ++ StName.schemaS :: t1) from rfl]
          exact e1
        · simp only [stepOnce]; rw [stepBlock, if_neg h3]
          rw [show ((StName.blockS :: d' : List StName) ++ StName.schemaS :: t2 : Stack) =
            StName.blockS :: (d' ++ StName.schemaS :: t2) from rfl]
          exact e2
        · cases ho; exact Or.inr ⟨d', t1, t2, rfl, rfl, dOk_ctlOf _ _⟩
  | argsEnterC =>
    obtain ⟨d, t1, t2, rfl, rfl, hd⟩ := h.decomp (fun hh => nomatch hh)
    simp only [stepOnce, stepArgsEnter]
    rw [pushS_append, pushS_append]
    exact ⟨_, _, _, _, rfl, rfl, fun ctl' ho => by
      cases ho
      exact Or.inr ⟨_, t1, t2, rfl, rfl, pushD_head _ _ (by decide)⟩⟩
  | argsLoopC sl =>
    obtain ⟨d, t1, t2, rfl, rfl, hd⟩ := h.decomp (fun hh => nomatch hh)
    obtain ⟨a, d', rfl⟩ : ∃ a d', d = a :: d' := by
      cases d with
      | nil => exact absurd hd (by simp [dOkC])
      | cons a d' => exact ⟨a, d', rfl⟩
    have ha : a = StName.argsS := by simpa [dOkC] using hd
    subst ha
    obtain ⟨cc, e, he, hok⟩ := argsEff sl c
    have e1 := he (StName.argsS :: d' ++ StName.schemaS :: t1)
    have e2 := he (StName.argsS :: d' ++ StName.schemaS :: t2)
    cases e with
    | stay o =>
      simp only [applyLoopEff] at e1 e2
      refine ⟨cc, o, StName.argsS :: d' ++ StName.schemaS :: t1,
        StName.argsS :: d' ++ StName.schemaS :: t2, ?_, ?_, fun ctl' ho => ?_⟩
      · simp only [stepOnce]; exact e1
      · simp only [stepOnce]; exact e2
      · rcases hok ctl' (by rw [ho]) with h | h | h <;> subst h
        · exact Or.inr ⟨StName.argsS :: d', t1, t2, rfl, rfl, trivial⟩
        · exact Or.inr ⟨StName.argsS :: d', t1, t2, rfl, rfl, trivial⟩
        · exact Or.inr ⟨StName.argsS :: d', t1, t2, rfl, rfl, hd⟩
    | popLast =>
      simp only [applyLoopEff, List.cons_append, popS, List.tail_cons] at e1 e2
      rw [goLast_append] at e1 e2
      refine ⟨cc, some (ctlOf (headDS d')), d' ++ StName.schemaS :: t1,
        d' ++ StName.schemaS :: t2, ?_, ?_, fun ctl' ho => ?_⟩
      · simp only [stepOnce]
        rw [show ((StName.argsS :: d' : List StName) ++ StName.schemaS :: t1 : Stack) =
          StName.argsS :: (d' ++ StName.schemaS :: t1) from rfl]
        exact e1
      · simp only [stepOnce]
        rw [show ((StName.argsS :: d' : List StName) ++ StName.schemaS :: t2 : Stack) =
          StName.argsS :: (d' ++ StName.schemaS :: t2) from rfl]
        exact e2
      · cases ho; exact Or.inr ⟨d', t1, t2, rfl, rfl, dOk_ctlOf _ _⟩
  | strLitC =>
    obtain ⟨d, t1, t2, rfl, rfl, hd⟩ := h.decomp (fun hh => nomatch hh)
    simp only [stepOnce, stepStr]
    split
    · refine ⟨_, none, _, _, rfl, rfl, fun _ ho => nomatch ho⟩
    · rw [goLast_append, goLast_append]
      exact ⟨_, _, _, _, rfl, rfl, fun ctl' ho => by
        cases ho; exact Or.inr ⟨d, t1, t2, rfl, rfl, dOk_ctlOf _ _⟩⟩

/-- Lockstep bisimulation of the scanner's `run` loop over two
interchangeable global stacks: the emitted items and all other lexer state
coincide at every step. -/
theorem runL_rel : ∀ (fuel : Nat) (ctl : Ctl) (c : Core) (s1 s2 : Stack),
    StkRel ctl s1 s2 → (runL fuel ctl c s1).1 = (runL fuel ctl c s2).1 := by
  intro fuel
  induction fuel with
  | zero => intro ctl c s1 s2 _; rfl
  | succ f ih =>
    intro ctl c s1 s2 h
    obtain ⟨c', o, s1', s2', h1, h2, hrel⟩ := stepOnce_rel ctl c s1 s2 h
    rw [runL, h1, runL, h2]
    cases o with
    | none => rfl
    | some ctl' => exact ih ctl' c' s1' s2' (hrel ctl' rfl)

/-- C8: invoking the scanner twice on the same text yields identical token
sequences — even when the first invocation ended in a lexical error and left
entries on the package-level `fnStack`, the second scan's output does not
depend on any state left behind by the first.  Stated in the strongest form:
the item sequence produced by a scan is the same for every residual global
mode stack, so in particular for the stack left behind by any earlier scan
of any input. -/
theorem c8_scan_stack_independent :
    ∀ (text : String) (s1 s2 : Stack), scanItems text s1 = scanItems text s2 := by
  intro text s1 s2
  unfold scanItems
  rw [runL_rel (fuelOf text.toList) Ctl.schemaC (initCore text) s1 s2 (Or.inl rfl)]

/-! ### Association-list lemmas shared by several claims -/

theorem lookupA_upsertA_self {α : Type} (l : List (String × α)) (k : String) (v : α) :
    lookupA (upsertA l k v) k = some v := by
  induction l with
  | nil => simp [upsertA, lookupA]
  | cons p rest ih =>
    by_cases hk : p.1 = k
    · simp [upsertA, hk, lookupA]
    · simp only [upsertA]
      rw [if_neg hk]
      simp only [lookupA]
      rw [if_neg hk]
      exact ih

theorem mem_upsertA {α : Type} (l : List (String × α)) (k : String) (v : α)
    (a : String) (b : α) (h : (a, b) ∈ upsertA l k v) : (a, b) = (k, v) ∨ (a, b) ∈ l := by
  induction l with
  | nil => simpa [upsertA] using h
  | cons p rest ih =>
    by_cases hk : p.1 = k
    · simp only [upsertA] at h
      rw [if_pos hk] at h
      rcases List.mem_cons.mp h with h | h
      · exact Or.inl h
      · exact Or.inr (List.mem_cons_of_mem _ h)
    · simp only [upsertA] at h
      rw [if_neg hk] at h
      rcases List.mem_cons.mp h with h | h
      · exact Or.inr (h ▸ List.mem_cons_self _ _)
      · rcases ih h with h | h
        · exact Or.inl h
        · exact Or.inr (List.mem_cons_of_mem _ h)

theorem lookupA_upsertA_cases {α : Type} (l : List (String × α)) (k : String) (v : α)
    (a : String) (b : α) (h : lookupA (upsertA l k v) a = some b) :
    b = v ∨ lookupA l a = some b := by
  induction l with
  | nil =>
    simp only [upsertA, lookupA] at h
    split at h
    · exact Or.inl (Option.some.inj h).symm
    · exact absurd h (by simp)
  | cons p rest ih =>
    by_cases hk : p.1 = k
    · simp only [upsertA] at h
      rw [if_pos hk] at h
      simp only [lookupA] at h ⊢
      split at h
      · exact Or.inl (Option.some.inj h).symm
      · rename_i hka
        rw [if_neg (hk ▸ hka)]
        exact Or.inr h
    · simp only [upsertA] at h
      rw [if_neg hk] at h
      simp only [lookupA] at h ⊢
      by_cases hpa : p.1 = a
      · rw [if_pos hpa] at h ⊢
        exact Or.inr h
      · rw [if_neg hpa] at h ⊢
        exact ih h

/-! ### Claim theorems: concrete build evaluations (C1, C2, C4) -/

/-- C1: `BuildSchemaConfig` never installs its `recover` handler, so a
failure raised inside parsing is *not* caught at the top of the build call:
on the failing input `"type"` the internal panic (message data
`No identifier after type keyword` with the 1-based line 1) escapes the call
as an unhandled unwind instead of being converted into the returned error
value, and the lexing goroutine is never drained. -/
theorem c1_build_panic_escapes :
    Parse1.BuildSchemaConfig "type" [] =
      BuildResult.panicked { line := 1, kind := EKind.noIdentAfterType Tok.eofT "" } := by
  rfl

/-- C2: in the `parse.go` revision the `if _, ok := types[tname]; !ok` branch
of `processTypeNode` is empty, so on the input `type Query \x7b a: Foo \x7d`
(with `Foo` undeclared) the build returns *successfully*, handing the caller
a root query object whose field `a` has a nil type and no error — the
undeclared reference is not reported.  The union-capable revision does fail
on the same input, naming `Foo`. -/
theorem c2_undeclared_silent_nil :
    Parse0.BuildSchemaConfig "type Query \x7b a: Foo \x7d" [] =
      BuildResult.returned
        { query := some (GObject.mk "RootQuery" [("a", GField.mk none none none)]) } none ∧
    Parse1.BuildSchemaConfig "type Query \x7b a: Foo \x7d" [] =
      BuildResult.panicked { line := 1, kind := EKind.undeclaredType "Foo" } := by
  exact ⟨rfl, rfl⟩

/-- C4: under the sequential (union-capable) parser, declaring
`union SearchResult = Photo | Person` after `type Photo` and `type Person`
succeeds, registering a union whose member list is the two declared object
types in source order (Photo, then Person); declaring the same union before
either member type fails the build with an undeclared-name error naming the
first member. -/
theorem c4_union_order :
    (Parse1.buildFull
        "type Photo \x7b a: String \x7d\ntype Person \x7b b: String \x7d\nunion SearchResult = Photo | Person"
        []).1 = BuildResult.returned { query := none } none ∧
    lookupA
      (Parse1.buildFull
        "type Photo \x7b a: String \x7d\ntype Person \x7b b: String \x7d\nunion SearchResult = Photo | Person"
        []).2.unions "SearchResult" =
      some (GUnion.mk "SearchResult"
        [GObject.mk "Photo" [("a", GField.mk (some (GType.scalar "String")) none none)],
         GObject.mk "Person" [("b", GField.mk (some (GType.scalar "String")) none none)]]) ∧
    Parse1.BuildSchemaConfig
        "union SearchResult = Photo | Person\ntype Photo \x7b a: String \x7d\ntype Person \x7b b: String \x7d"
        [] = BuildResult.panicked { line := 1, kind := EKind.undeclaredObject "Photo" } := by
  exact ⟨rfl, rfl, rfl⟩

/-! ### Association-list lookups under permutation (C3) -/

theorem lookupA_mem {α : Type} (l : List (String × α)) (k : String) (v : α)
    (h : lookupA l k = some v) : (k, v) ∈ l := by
  induction l with
  | nil => simp [lookupA] at h
  | cons p rest ih =>
    obtain ⟨pk, pv⟩ := p
    simp only [lookupA] at h
    by_cases hk : pk = k
    · rw [if_pos hk] at h
      exact List.mem_cons.mpr (Or.inl (by rw [← hk, ← Option.some.inj h]))
    · rw [if_neg hk] at h
      exact List.mem_cons_of_mem _ (ih h)

theorem lookupA_eq_none_iff_keys {α : Type} (l : List (String × α)) (k : String) :
    lookupA l k = none ↔ k ∉ l.map Prod.fst := by
  induction l with
  | nil => simp [lookupA]
  | cons p rest ih =>
    obtain ⟨pk, pv⟩ := p
    simp only [lookupA, List.map_cons, List.mem_cons]
    by_cases hk : pk = k
    · rw [if_pos hk]
      simp [hk]
    · rw [if_neg hk, ih]
      constructor
      · intro h hc
        rcases hc with hc | hc
        · exact hk hc.symm
        · exact h hc
      · intro h hc
        exact h (Or.inr hc)

theorem lookupA_eq_some_of_mem {α : Type} (l : List (String × α)) (k : String) (v : α)
    (hnd : (l.map Prod.fst).Nodup) (h : (k, v) ∈ l) : lookupA l k = some v := by
  induction l with
  | nil => cases h
  | cons p rest ih =>
    obtain ⟨pk, pv⟩ := p
    simp only [List.map_cons, List.nodup_cons] at hnd
    rcases List.mem_cons.mp h with h | h
    · obtain ⟨h1, h2⟩ := Prod.mk.injEq .. ▸ h
      simp [lookupA, h1.symm, h2]
    · by_cases hk : pk = k
      · exact absurd (hk ▸ (List.mem_map_of_mem Prod.fst h : k ∈ rest.map Prod.fst)) hnd.1
      · simp only [lookupA]
        rw [if_neg hk]
        exact ih hnd.2 h

theorem lookupA_perm {α : Type} (l l' : List (String × α)) (hp : l.Perm l')
    (hnd : (l.map Prod.fst).Nodup) (k : String) : lookupA l k = lookupA l' k := by
  have hnd' : (l'.map Prod.fst).Nodup := (hp.map Prod.fst).nodup_iff.mp hnd
  cases hv : lookupA l k with
  | none =>
    have hk : k ∉ l.map Prod.fst := (lookupA_eq_none_iff_keys l k).mp hv
    have hk' : k ∉ l'.map Prod.fst := fun hc => hk ((hp.map Prod.fst).mem_iff.mpr hc)
    exact ((lookupA_eq_none_iff_keys l' k).mpr hk').symm
  | some v =>
    have hm : (k, v) ∈ l' := hp.mem_iff.mp (lookupA_mem l k v hv)
    exact (lookupA_eq_some_of_mem l' k v hnd' hm).symm

theorem defsOf_keys (decls : List Gen.ObjDecl) :
    (Gen.defsOf decls).map Prod.fst = decls.map Gen.ObjDecl.name := by
  induction decls with
  | nil => rfl
  | cons d rest ih =>
    simp only [Gen.defsOf, List.map_cons] at ih ⊢
    exact congrArg (List.cons d.name) ih

theorem getGoType_perm (decls decls' : List Gen.ObjDecl) (hp : decls.Perm decls')
    (hnd : (decls.map Gen.ObjDecl.name).Nodup) (r : Gen.GTypeRef) :
    Gen.getGoType decls r = Gen.getGoType decls' r := by
  have hlk : ∀ n, lookupA (Gen.defsOf decls) n = lookupA (Gen.defsOf decls') n := by
    intro n
    refine lookupA_perm (Gen.defsOf decls) (Gen.defsOf decls') (hp.map _) ?_ n
    rw [defsOf_keys]
    exact hnd
  induction r with
  | named n =>
    simp only [Gen.getGoType, Gen.getGoName]
    cases hb : Gen.builtinName n with
    | none => rw [hlk n]
    | some s => rfl
  | listOf t ih => simp only [Gen.getGoType]; rw [ih]
  | nonNull t ih => simp only [Gen.getGoType]; rw [ih]

theorem processAST_hangs_iff (ds : List Gen.ObjDecl) :
    Gen.processAST ds = Gen.GenOutcome.hangs ↔
      (ds.all fun d => d.fields.all fun f => (Gen.getGoType ds f.2).isSome) = false := by
  unfold Gen.processAST
  by_cases hb : (ds.all fun d => d.fields.all fun f => (Gen.getGoType ds f.2).isSome) = true
  · rw [if_pos hb, hb]
    constructor
    · intro hcon
      exact absurd hcon (by simp)
    · intro hcon
      exact absurd hcon (by simp)
  · rw [if_neg hb]
    exact iff_of_true rfl (by simpa using hb)

/-! ### Double-pipe and trailing-pipe violations of union member lists (C7) -/

/-- A stream of member-list items that hits the no-double-pipe or
no-trailing-pipe grammar rule (`b` is the `lastispipe` flag carried into the
stream): a pipe while the flag is set, a union terminator while the flag is
set, or such a violation later in the stream under the flag the earlier
items leave. -/
def pipeViol : Bool → List Item → Prop
  | _, [] => False
  | b, x :: xs =>
    (x.typ = Tok.pipe ∧ b = true) ∨
    (x.typ = Tok.pipe ∧ pipeViol true xs) ∨
    (x.typ = Tok.unionEnd ∧ b = true) ∨
    (x.typ ≠ Tok.pipe ∧ x.typ ≠ Tok.unionEnd ∧ pipeViol false xs)

theorem unionLoop_pipeViol (st : Parse1.PState) :
    ∀ (l : List Item) (tys : List GObject) (b : Bool), pipeViol b l →
      ∃ e, Parse1.unionLoop st tys b l = Except.error e := by
  intro l
  induction l with
  | nil =>
    intro tys b hv
    simp [pipeViol] at hv
  | cons x xs ih =>
    intro tys b hv
    simp only [pipeViol] at hv
    rcases hv with ⟨hp, hb⟩ | ⟨hp, hv'⟩ | ⟨hu, hb⟩ | ⟨hnp, hnu, hv'⟩
    · subst hb
      exact ⟨errf x EKind.doublePipe, by simp [Parse1.unionLoop, hp]⟩
    · cases b with
      | true => exact ⟨errf x EKind.doublePipe, by simp [Parse1.unionLoop, hp]⟩
      | false =>
        obtain ⟨e, he⟩ := ih tys true hv'
        refine ⟨e, ?_⟩
        simp only [Parse1.unionLoop, hp, if_true]
        simpa using he
    · subst hb
      refine ⟨errf x EKind.lastIsPipe, ?_⟩
      simp only [Parse1.unionLoop]
      rw [if_neg (by rw [hu]; decide), if_pos hu]
      simp
    · simp only [Parse1.unionLoop]
      rw [if_neg hnp, if_neg hnu]
      by_cases hid : x.typ = Tok.identifier
      · rw [if_neg (by simpa using hid)]
        cases hlk : lookupA st.objects x.val with
        | none => exact ⟨errf x (EKind.undeclaredObject x.val), rfl⟩
        | some o =>
          obtain ⟨e, he⟩ := ih (tys ++ [o]) false hv'
          exact ⟨e, he⟩
      · rw [if_pos (by simpa using hid)]
        exact ⟨errf x (EKind.noLabelAfterBlockStart x.typ x.val), rfl⟩

/-! ### Resolver attachment by field label (C10) -/

theorem fieldRest_resolve (rs : List (String × Nat)) (st : Parse1.PState)
    (fields : List (String × GField)) (label : String)
    (params : Option (List (String × GType))) (x3 : Item) (s3 : List Item)
    (fields' : List (String × GField)) (s' : List Item)
    (h : Parse1.fieldRest rs st fields label params x3 s3 = Except.ok (fields', s'))
    (hP : ∀ lab f, (lab, f) ∈ fields → f.resolve = lookupA rs lab) :
    ∀ lab f, (lab, f) ∈ fields' → f.resolve = lookupA rs lab := by
  have close : ∀ (t : Option GType) (s'' : List Item),
      Except.ok (upsertA fields label (GField.mk t params (lookupA rs label)), s'') =
        (Except.ok (fields', s') : Except PErr (List (String × GField) × List Item)) →
      ∀ lab f, (lab, f) ∈ fields' → f.resolve = lookupA rs lab := by
    intro t s'' heq lab f hmem
    simp only [Except.ok.injEq, Prod.mk.injEq] at heq
    obtain ⟨h1, h2⟩ := heq
    rw [← h1] at hmem
    rcases mem_upsertA _ _ _ _ _ hmem with he | hm
    · simp only [Prod.mk.injEq] at he
      obtain ⟨rfl, rfl⟩ := he
      rfl
    · exact hP _ _ hm
  simp only [Parse1.fieldRest, pNext] at h
  split at h
  · exact absurd h (by simp)
  · split at h
    · split at h
      · exact absurd h (by simp)
      · split at h
        · exact absurd h (by simp)
        · split at h
          · exact absurd h (by simp)
          · exact close _ _ h
    · split at h
      · exact absurd h (by simp)
      · split at h
        · exact absurd h (by simp)
        · exact close _ _ h

theorem fieldsLoop_resolve (rs : List (String × Nat)) (st : Parse1.PState) :
    ∀ (fuel : Nat) (fields : List (String × GField)) (stream : List Item)
      (fields' : List (String × GField)) (s' : List Item),
      Parse1.fieldsLoop rs st fuel fields stream = Except.ok (fields', s') →
      (∀ lab f, (lab, f) ∈ fields → f.resolve = lookupA rs lab) →
      ∀ lab f, (lab, f) ∈ fields' → f.resolve = lookupA rs lab := by
  intro fuel
  induction fuel with
  | zero =>
    intro fields stream fields' s' h hP
    simp [Parse1.fieldsLoop] at h
  | succ n ih =>
    intro fields stream fields' s' h hP
    rw [Parse1.fieldsLoop.eq_def] at h
    cases stream with
    | nil => exact absurd h (by simp)
    | cons x s1 =>
      simp only [pNext] at h
      split at h
      · simp only [Except.ok.injEq, Prod.mk.injEq] at h
        obtain ⟨h1, h2⟩ := h
        intro lab f hm
        exact hP _ _ (h1 ▸ hm)
      · split at h
        · exact absurd h (by simp)
        · split at h
          · split at h
            · exact absurd h (by simp)
            · split at h
              · exact absurd h (by simp)
              · rename_i hfr
                exact ih _ _ _ _ h
                  (fieldRest_resolve _ _ _ _ _ _ _ _ _ hfr hP)
          · split at h
            · exact absurd h (by simp)
            · rename_i hfr
              exact ih _ _ _ _ h
                (fieldRest_resolve _ _ _ _ _ _ _ _ _ hfr hP)

/-! ### End-of-input shapes of the scanner's mode functions (C6) -/

theorem hasPre3q_shape (l : List Char) (h : hasPre3q l = true) :
    ∃ rest, l = '\"' :: '\"' :: '\"' :: rest := by
  unfold hasPre3q at h
  split at h
  · rename_i rest
    exact ⟨rest, rfl⟩
  · exact absurd h (by simp)

theorem drop_of_peekc_none (c : Core) (h : peekc c = none) :
    c.input.drop c.pos = [] :=
  List.drop_eq_nil_of_le (List.get?_eq_none.mp h)

/-! ### Claim theorems C3, C5, C6, C7, C9, C10 with their witnesses -/

/-- C3: in the concurrent generator the order-independence half holds — for
permuted declaration lists with distinct names, every type reference
resolves to the same Go expression, the generator hangs on one order exactly
when it hangs on the other, and the published name map answers every lookup
identically — but the failure half does not: a declaration referencing a
name that no declaration defines makes `processAST` hang forever (its
goroutine blocks in `getGoName` on a channel nothing will ever close and
`wg.Wait()` never returns) instead of reporting the undeclared name after
the declared tasks complete. -/
theorem c3_concurrent_order_and_hang :
    (∀ (decls decls' : List Gen.ObjDecl), decls.Perm decls' →
      (decls.map Gen.ObjDecl.name).Nodup →
      (∀ r, Gen.getGoType decls r = Gen.getGoType decls' r) ∧
      (Gen.processAST decls = Gen.GenOutcome.hangs ↔
        Gen.processAST decls' = Gen.GenOutcome.hangs) ∧
      (∀ n, lookupA (Gen.defsOf decls) n = lookupA (Gen.defsOf decls') n)) ∧
    Gen.processAST [Gen.ObjDecl.mk "A" [("b", Gen.GTypeRef.named "B")]] =
      Gen.GenOutcome.hangs := by
  constructor
  · intro decls decls' hp hnd
    have hgt : ∀ r, Gen.getGoType decls r = Gen.getGoType decls' r :=
      getGoType_perm decls decls' hp hnd
    refine ⟨hgt, ?_, fun n => lookupA_perm (Gen.defsOf decls) (Gen.defsOf decls')
      (hp.map _) (by rw [defsOf_keys]; exact hnd) n⟩
    rw [processAST_hangs_iff decls, processAST_hangs_iff decls']
    have h1 : ∀ d : Gen.ObjDecl,
        (d.fields.all fun f => (Gen.getGoType decls f.2).isSome) =
        (d.fields.all fun f => (Gen.getGoType decls' f.2).isSome) := by
      intro d
      simp only [hgt]
    constructor
    · intro h
      rw [Bool.eq_false_iff] at h ⊢
      intro hc
      apply h
      rw [List.all_eq_true] at hc ⊢
      intro d hd
      rw [h1 d]
      exact hc d (hp.mem_iff.mp hd)
    · intro h
      rw [Bool.eq_false_iff] at h ⊢
      intro hc
      apply h
      rw [List.all_eq_true] at hc ⊢
      intro d hd
      rw [← h1 d]
      exact hc d (hp.mem_iff.mpr hd)
  · rfl

theorem c3_concurrent_order_and_hang_witness :
    lookupA (Gen.defsOf [Gen.ObjDecl.mk "A" [("b", Gen.GTypeRef.named "B")],
                         Gen.ObjDecl.mk "B" [("a", Gen.GTypeRef.named "A")]]) "B" =
      lookupA (Gen.defsOf [Gen.ObjDecl.mk "B" [("a", Gen.GTypeRef.named "A")],
                           Gen.ObjDecl.mk "A" [("b", Gen.GTypeRef.named "B")]]) "B" :=
  (c3_concurrent_order_and_hang.1
      [Gen.ObjDecl.mk "A" [("b", Gen.GTypeRef.named "B")],
       Gen.ObjDecl.mk "B" [("a", Gen.GTypeRef.named "A")]]
      [Gen.ObjDecl.mk "B" [("a", Gen.GTypeRef.named "A")],
       Gen.ObjDecl.mk "A" [("b", Gen.GTypeRef.named "B")]]
      (List.Perm.swap _ _ _) (by decide)).2.2 "B"

/-- C5: in the union-capable parser a successfully processed type
declaration named exactly `Query` leaves the object table exactly as it was
and installs the declaration's fields as the schema's root query object
under the name `RootQuery`; a declaration with any other name leaves the
schema config untouched and registers the object in the table under its own
name, where later declarations can look it up. -/
theorem c5_query_special (rs : List (String × Nat)) (st : Parse1.PState)
    (cfg : SchemaConfig) (nm : Item) (rest : List Item)
    (st' : Parse1.PState) (cfg' : SchemaConfig) (s' : List Item)
    (h : Parse1.processTypeNode rs st cfg (nm :: rest) = Except.ok (st', cfg', s')) :
    ∃ fields,
      (nm.val = "Query" →
        st' = st ∧ cfg'.query = some (GObject.mk "RootQuery" fields)) ∧
      (nm.val ≠ "Query" →
        cfg' = cfg ∧
        st'.objects = upsertA st.objects nm.val (GObject.mk nm.val fields) ∧
        st'.unions = st.unions ∧
        lookupA st'.objects nm.val = some (GObject.mk nm.val fields)) := by
  simp only [Parse1.processTypeNode, pNext] at h
  split at h
  · exact absurd h (by simp)
  · split at h
    · exact absurd h (by simp)
    · split at h
      · exact absurd h (by simp)
      · rename_i fres fields0 s3 heq
        by_cases hq : nm.val = "Query"
        · rw [if_pos hq] at h
          simp only [Except.ok.injEq, Prod.mk.injEq] at h
          obtain ⟨h1, h2, h3⟩ := h
          refine ⟨fields0, fun _ => ⟨h1.symm, ?_⟩, fun hne => absurd hq hne⟩
          rw [← h2]
        · rw [if_neg hq] at h
          simp only [Except.ok.injEq, Prod.mk.injEq] at h
          obtain ⟨h1, h2, h3⟩ := h
          refine ⟨fields0, fun hqq => absurd hqq hq, fun _ => ⟨h2.symm, ?_, ?_, ?_⟩⟩
          · rw [← h1]
          · rw [← h1]
          · rw [← h1]
            exact lookupA_upsertA_self st.objects nm.val (GObject.mk nm.val fields0)

theorem c5_query_special_witness :
    ∃ fields, ({ query := some (GObject.mk "RootQuery" []) } : SchemaConfig).query =
      some (GObject.mk "RootQuery" fields) := by
  obtain ⟨fields, hq, _⟩ := c5_query_special [] Parse1.initPState { query := none }
    { typ := Tok.identifier, pos := 5, val := "Query", line := 1 }
    [{ typ := Tok.blockStart, pos := 11, val := "", line := 1 },
     { typ := Tok.blockEnd, pos := 12, val := "", line := 1 }]
    Parse1.initPState { query := some (GObject.mk "RootQuery" []) } [] rfl
  exact ⟨fields, (hq rfl).2⟩

/-- C6 counterexample: on the input `type Q \x7b` + newline + `f: String`
the scanner reaches end of input while Block mode is active; the emitted
block-start item shows the mode was entered on line 1, yet the
unterminated-block error item carries line 3 — the line counter at end of
input (the single newline is even counted twice), not the line the mode was
entered on; and on `union X = A` end of input in Union mode produces no
error item at all, only the union terminator and the EOF item. -/
theorem c6_eof_entry_line_counterexample :
    tokenize "type Q \x7b\nf: String" =
      [{ typ := Tok.typeK, pos := 0, val := "type", line := 1 },
       { typ := Tok.identifier, pos := 5, val := "Q", line := 1 },
       { typ := Tok.blockStart, pos := 8, val := "", line := 1 },
       { typ := Tok.identifier, pos := 9, val := "f", line := 3 },
       { typ := Tok.colon, pos := 10, val := ":", line := 3 },
       { typ := Tok.identifier, pos := 12, val := "String", line := 3 },
       { typ := Tok.error, pos := 18, val := "unterminated block", line := 3 }] ∧
    tokenize "union X = A" =
      [{ typ := Tok.unionK, pos := 0, val := "union", line := 1 },
       { typ := Tok.identifier, pos := 6, val := "X", line := 1 },
       { typ := Tok.equal, pos := 8, val := "=", line := 1 },
       { typ := Tok.identifier, pos := 10, val := "A", line := 1 },
       { typ := Tok.unionEnd, pos := 11, val := "", line := 1 },
       { typ := Tok.eofT, pos := 11, val := "", line := 1 }] :=
  ⟨rfl, rfl⟩

/-- C6 (amended): reaching end of input in Block or Args mode raises an
error whose line is the `startLine` captured when the mode's state function
was last (re-)invoked — the scanner's line counter at that moment, not
necessarily the line the mode was first entered, since every return into the
mode re-captures it; reaching end of input inside an unclosed triple-quoted
string raises its error at the line the literal began; and end of input in
Union mode is no error at all — a union terminator is emitted and control
returns to the enclosing mode. -/
theorem c6_eof_error_line_amended :
    (∀ (sl : Nat) (c : Core) (s : Stack), peekc c = none →
      stepBlock sl c s =
        ({ c with
            line := sl,
            out := c.out ++
              [{ typ := Tok.error, pos := c.start, val := "unterminated block",
                 line := sl }] },
         s, none)) ∧
    (∀ (sl : Nat) (c : Core) (s : Stack), peekc c = none →
      stepArgs sl c s =
        ({ c with
            line := sl,
            out := c.out ++
              [{ typ := Tok.error, pos := c.start, val := "unterminated arguments block",
                 line := sl }] },
         s, none)) ∧
    (∀ (c : Core) (s : Stack),
      stepBlockEnter c s = (c, pushS StName.blockS s, some (Ctl.blockLoopC c.line)) ∧
      stepArgsEnter c s = (c, pushS StName.argsS s, some (Ctl.argsLoopC c.line))) ∧
    (∀ (c : Core) (s : Stack), peekc c = none →
      stepUnion c s = goLast (emitI Tok.unionEnd c) s) ∧
    (∀ (c : Core) (s : Stack), c.start = c.pos →
      hasPre3q (c.input.drop c.pos) = true →
      idx3q (c.input.drop (c.pos + 3)) = none →
      stepStr c s =
        (errI ("unclosed string at pos " ++ toString (c.pos + 3))
          { c with pos := c.pos + 3, start := c.pos + 3 }, s, none)) := by
  refine ⟨?_, ?_, ?_, ?_, ?_⟩
  · intro sl c s h
    rw [stepBlock, drop_of_peekc_none c h]
    rw [if_neg (by decide), h]
    rfl
  · intro sl c s h
    rw [stepArgs, h]
    rfl
  · intro c s
    exact ⟨rfl, rfl⟩
  · intro c s h
    rw [stepUnion, h]
  · intro c s h1 h2 h3
    obtain ⟨rest, hdrop⟩ := hasPre3q_shape _ h2
    have hslice : sliceL { c with pos := c.pos + 3 } = ['\"', '\"', '\"'] := by
      show (c.input.drop c.start).take (c.pos + 3 - c.start) = _
      rw [h1, Nat.add_sub_cancel_left, hdrop]
      rfl
    have hign : ignoreI { c with pos := c.pos + 3 } =
        { c with pos := c.pos + 3, start := c.pos + 3 } := by
      unfold ignoreI
      rw [hslice]
      simp [countNL]
    simp only [stepStr]
    rw [hign, h3]

theorem c6_eof_error_line_amended_witness :
    peekc { input := [], pos := 0, start := 0, line := 4, parenDepth := 0, out := [] } =
      none ∧
    stepBlock 2 { input := [], pos := 0, start := 0, line := 4, parenDepth := 0, out := [] }
        [] =
      ({ input := [], pos := 0, start := 0, line := 2, parenDepth := 0,
         out := [{ typ := Tok.error, pos := 0, val := "unterminated block", line := 2 }] },
       [], none) :=
  ⟨rfl, c6_eof_error_line_amended.1 2
    { input := [], pos := 0, start := 0, line := 4, parenDepth := 0, out := [] } [] rfl⟩

/-- C7: a union member list containing two consecutive pipe tokens, or whose
union terminator immediately follows a pipe, always fails the definition
parser — the member loop of `processUnionNode` raises an error on every such
stream — while the scanner tokenizes the pipes without any error item: the
input `union X = A || B` scans into clean tokens carrying both pipes, the
bare input fails the build (the panic names the first member, undeclared
here), and with both members declared the same member list fails with the
double-pipe error (resp. the trailing-pipe error), never a silently-empty
member. -/
theorem c7_double_pipe_parser_error :
    (∀ (st : Parse1.PState) (l : List Item) (tys : List GObject) (b : Bool),
      pipeViol b l → ∃ e, Parse1.unionLoop st tys b l = Except.error e) ∧
    tokenize "union X = A || B" =
      [{ typ := Tok.unionK, pos := 0, val := "union", line := 1 },
       { typ := Tok.identifier, pos := 6, val := "X", line := 1 },
       { typ := Tok.equal, pos := 8, val := "=", line := 1 },
       { typ := Tok.identifier, pos := 10, val := "A", line := 1 },
       { typ := Tok.pipe, pos := 12, val := "|", line := 1 },
       { typ := Tok.pipe, pos := 13, val := "|", line := 1 },
       { typ := Tok.identifier, pos := 15, val := "B", line := 1 },
       { typ := Tok.unionEnd, pos := 16, val := "", line := 1 },
       { typ := Tok.eofT, pos := 16, val := "", line := 1 }] ∧
    Parse1.BuildSchemaConfig "union X = A || B" [] =
      BuildResult.panicked { line := 1, kind := EKind.undeclaredObject "A" } ∧
    Parse1.BuildSchemaConfig
        "type A \x7b f: String \x7d\ntype B \x7b f: String \x7d\nunion X = A || B" [] =
      BuildResult.panicked { line := 5, kind := EKind.doublePipe } ∧
    Parse1.BuildSchemaConfig
        "type A \x7b f: String \x7d\ntype B \x7b f: String \x7d\nunion X = A | B |" [] =
      BuildResult.panicked { line := 5, kind := EKind.lastIsPipe } :=
  ⟨fun st l tys b h => unionLoop_pipeViol st l tys b h, rfl, rfl, rfl, rfl⟩

theorem c7_double_pipe_parser_error_witness :
    pipeViol true [{ typ := Tok.pipe, pos := 12, val := "|", line := 1 }] ∧
    ∃ e, Parse1.unionLoop Parse1.initPState [] true
        [{ typ := Tok.pipe, pos := 12, val := "|", line := 1 }] = Except.error e :=
  ⟨by simp [pipeViol],
   c7_double_pipe_parser_error.1 Parse1.initPState
     [{ typ := Tok.pipe, pos := 12, val := "|", line := 1 }] [] true
     (by simp [pipeViol])⟩

/-- C9: `MustBuildSchema` discards both error results — the error component
of a normal `BuildSchemaConfig` return and the error of the external
`graphql.NewSchema` call: whenever the build returns, the caller receives
the schema value alone, with nothing distinguishing a failed `NewSchema`
from a successful one (the result is insensitive to the error component of
the schema constructor). -/
theorem c9_must_discards_errors :
    (∀ (schema : String) (rs : List (String × Nat)) (σ : Type)
        (ns : SchemaConfig → σ × Option String) (cfg : SchemaConfig) (err : Option PErr),
      Parse1.BuildSchemaConfig schema rs = BuildResult.returned cfg err →
      Parse1.MustBuildSchema schema rs ns = Parse1.MustResult.value (ns cfg).1) ∧
    (∀ (schema : String) (rs : List (String × Nat)) (σ : Type)
        (ns1 ns2 : SchemaConfig → σ × Option String),
      (∀ cfg, (ns1 cfg).1 = (ns2 cfg).1) →
      Parse1.MustBuildSchema schema rs ns1 = Parse1.MustBuildSchema schema rs ns2) := by
  constructor
  · intro schema rs σ ns cfg err h
    unfold Parse1.MustBuildSchema
    rw [h]
  · intro schema rs σ ns1 ns2 hns
    unfold Parse1.MustBuildSchema
    cases Parse1.BuildSchemaConfig schema rs with
    | returned cfg err => simp only [hns cfg]
    | panicked e => rfl
    | hung => rfl

theorem c9_must_discards_errors_witness :
    Parse1.MustBuildSchema "type Query \x7b a: String \x7d" []
        (fun _ => ((0 : Nat), some "boom")) = Parse1.MustResult.value 0 :=
  c9_must_discards_errors.1 "type Query \x7b a: String \x7d" [] Nat
    (fun _ => ((0 : Nat), some "boom"))
    { query := some (GObject.mk "RootQuery"
        [("a", GField.mk (some (GType.scalar "String")) none none)]) }
    none rfl

/-- C10: in the union-capable parser, resolver attachment depends only on
the field's own label: every field of the root query object a successful
`processTypeNode` installs, and every field of an object it registers in the
table, carries exactly the resolver the input mapping holds under that
field's label (so two fields with the same label in different types receive
the same callback, and the enclosing type's name plays no part). -/
theorem c10_resolver_by_label (rs : List (String × Nat)) (st : Parse1.PState)
    (cfg : SchemaConfig) (stream : List Item)
    (st' : Parse1.PState) (cfg' : SchemaConfig) (s' : List Item)
    (h : Parse1.processTypeNode rs st cfg stream = Except.ok (st', cfg', s')) :
    (∀ obj, cfg'.query = some obj → cfg'.query ≠ cfg.query →
      ∀ lab f, (lab, f) ∈ obj.fields → f.resolve = lookupA rs lab) ∧
    (∀ nmv obj, lookupA st'.objects nmv = some obj → lookupA st.objects nmv ≠ some obj →
      ∀ lab f, (lab, f) ∈ obj.fields → f.resolve = lookupA rs lab) := by
  simp only [Parse1.processTypeNode, pNext] at h
  split at h
  · exact absurd h (by simp)
  · split at h
    · exact absurd h (by simp)
    · split at h
      · exact absurd h (by simp)
      · rename_i fres fields0 s3 heq
        have hres : ∀ lab f, (lab, f) ∈ fields0 → f.resolve = lookupA rs lab :=
          fieldsLoop_resolve rs st _ [] _ fields0 s3 heq (by intro lab f hm; cases hm)
        split at h
        · simp only [Except.ok.injEq, Prod.mk.injEq] at h
          obtain ⟨h1, h2, h3⟩ := h
          constructor
          · intro obj hq _ lab f hm
            rw [← h2] at hq
            simp only [Option.some.injEq] at hq
            rw [← hq] at hm
            exact hres lab f hm
          · intro nmv obj hl hne
            rw [h1] at hne
            exact absurd hl hne
        · simp only [Except.ok.injEq, Prod.mk.injEq] at h
          obtain ⟨h1, h2, h3⟩ := h
          constructor
          · intro obj hq hne
            rw [← h2] at hne
            exact absurd rfl hne
          · intro nmv obj hl hne lab f hm
            rw [← h1] at hl
            rcases lookupA_upsertA_cases _ _ _ _ _ hl with he | hlk
            · rw [he] at hm
              exact hres lab f hm
            · exact absurd hlk hne

theorem c10_resolver_by_label_witness :
    (GField.mk (some (GType.scalar "String")) none (some 7)).resolve =
      lookupA [("hello", 7)] "hello" := by
  have h := (c10_resolver_by_label [("hello", 7)] Parse1.initPState { query := none }
      [{ typ := Tok.identifier, pos := 5, val := "Foo", line := 1 },
       { typ := Tok.blockStart, pos := 9, val := "", line := 1 },
       { typ := Tok.identifier, pos := 11, val := "hello", line := 1 },
       { typ := Tok.colon, pos := 16, val := ":", line := 1 },
       { typ := Tok.identifier, pos := 18, val := "String", line := 1 },
       { typ := Tok.blockEnd, pos := 25, val := "", line := 1 }]
      { objects := [("Foo", GObject.mk "Foo"
          [("hello", GField.mk (some (GType.scalar "String")) none (some 7))])],
        unions := [] }
      { query := none } [] rfl).2
  exact h "Foo"
    (GObject.mk "Foo" [("hello", GField.mk (some (GType.scalar "String")) none (some 7))])
    rfl (by intro hc; exact Option.noConfusion hc) "hello"
    (GField.mk (some (GType.scalar "String")) none (some 7)) (List.Mem.head _)
